import Mathlib

/-!
# Verification of the MORSE/OMPL planning environment adapter

A shallow embedding of `scripts/morse/environment.py`: the control
applier, world stepper, RPC wrapper, goal evaluator and state codec of
`MyEnvironment`/`MyGoal`, with theorems settling the specified
behaviour.  Python floats are modelled by `ℚ` where only arithmetic and
comparisons matter, and by an explicit `PyFloat` type (finite / inf /
-inf / nan) where the textual round trip through `repr` and `eval`
matters.  Python exceptions are modelled by `Option`/`Except` results.
-/

namespace MorseEnv

/-- One sub-state of the flattened OMPL compound state.  The state the
planner hands to the adapter is a sequence of blocks, four per rigid
body: three 3-vector blocks (position, linear velocity, angular
velocity), indexable as `state[i][k]`, and one quaternion block with
fields `.w .x .y .z`. -/
inductive Block (α : Type) where
  | vec (x y z : α)
  | quat (w x y z : α)
deriving DecidableEq

/-- `True` for a 3-vector block, `False` for a quaternion block. -/
def blockKind {α : Type} : Block α → Bool
  | .vec _ _ _ => true
  | .quat _ _ _ _ => false

/-- One rigid body as the 4-tuple `(pos, lin, ang, quat)` that
`stateToList` builds and `MyGoal.dist` consumes: `b[0]` is the position
3-tuple, `b[3]` the orientation 4-tuple. -/
structure BodyTup (α : Type) where
  pos : α × α × α
  lin : α × α × α
  ang : α × α × α
  quat : α × α × α × α
deriving DecidableEq

/-- `s[0][i]` of a body tuple, `i < 3` (the position components). -/
def posGet {α : Type} [Zero α] (s : BodyTup α) : ℕ → α
  | 0 => s.pos.1
  | 1 => s.pos.2.1
  | 2 => s.pos.2.2
  | _ => 0

/-- `s[3][i]` of a body tuple, `i < 4` (the quaternion components). -/
def quatGet {α : Type} [Zero α] (s : BodyTup α) : ℕ → α
  | 0 => s.quat.1
  | 1 => s.quat.2.1
  | 2 => s.quat.2.2.1
  | 3 => s.quat.2.2.2
  | _ => 0

/-! ## `MyGoal.dist` (environment.py lines 184-191) -/

/-- `MyGoal.dist(s1, s2)`:
`sum((s1[0][i]-s2[0][i])**2 for i in range(3))
 + (1 - sum(s1[3][i]*s2[3][i] for i in range(4))**2)`. -/
def dist (s1 s2 : BodyTup ℚ) : ℚ :=
  ((List.range 3).map (fun i => (posGet s1 i - posGet s2 i) ^ 2)).sum +
    (1 - (((List.range 4).map (fun i => quatGet s1 i * quatGet s2 i)).sum) ^ 2)

/-- Spec-side reading of the position part: the Euclidean squared
distance between the two position triples, written out per axis. -/
def posDist2 (s1 s2 : BodyTup ℚ) : ℚ :=
  (s1.pos.1 - s2.pos.1) ^ 2 + (s1.pos.2.1 - s2.pos.2.1) ^ 2 +
    (s1.pos.2.2 - s2.pos.2.2) ^ 2

/-- Spec-side reading of the quaternion inner product `⟨q1, q2⟩`. -/
def qdot (s1 s2 : BodyTup ℚ) : ℚ :=
  s1.quat.1 * s2.quat.1 + s1.quat.2.1 * s2.quat.2.1 +
    s1.quat.2.2.1 * s2.quat.2.2.1 + s1.quat.2.2.2 * s2.quat.2.2.2

/-- The orientation is a unit quaternion: `⟨q, q⟩ = 1`. -/
def unitQuat (s : BodyTup ℚ) : Prop := qdot s s = 1

instance (s : BodyTup ℚ) : Decidable (unitQuat s) := by
  unfold unitQuat; infer_instance

/-- The same body state with the orientation quaternion negated. -/
def negQuat (s : BodyTup ℚ) : BodyTup ℚ :=
  { s with quat := (-s.quat.1, -s.quat.2.1, -s.quat.2.2.1, -s.quat.2.2.2) }

/-- The two orientations agree up to the quaternion double cover:
`q1 = q2` or `q1 = -q2`. -/
def quatUpToSign (s1 s2 : BodyTup ℚ) : Prop :=
  s1.quat = s2.quat ∨ s1.quat = (negQuat s2).quat

/-- `dist` written on the components, for calculation. -/
theorem dist_eq (s1 s2 : BodyTup ℚ) :
    dist s1 s2 = posDist2 s1 s2 + (1 - qdot s1 s2 ^ 2) := by
  obtain ⟨⟨a1, b1, c1⟩, l1, m1, ⟨w1, x1, y1, z1⟩⟩ := s1
  obtain ⟨⟨a2, b2, c2⟩, l2, m2, ⟨w2, x2, y2, z2⟩⟩ := s2
  simp [dist, posDist2, qdot, posGet, quatGet, List.range_succ]
  ring

/-- C8: `dist` is the Euclidean squared position distance plus the
orientation term `1 - ⟨q1,q2⟩²`; for unit quaternions `dist s s = 0`,
the orientation term lies in `[0,1]`, negating a quaternion leaves the
distance unchanged, and quaternions equal up to sign give orientation
distance `0`. -/
theorem dist_properties :
    (∀ s1 s2 : BodyTup ℚ, dist s1 s2 = posDist2 s1 s2 + (1 - qdot s1 s2 ^ 2))
    ∧ (∀ s : BodyTup ℚ, unitQuat s → dist s s = 0)
    ∧ (∀ s1 s2 : BodyTup ℚ, unitQuat s1 → unitQuat s2 →
        0 ≤ 1 - qdot s1 s2 ^ 2 ∧ 1 - qdot s1 s2 ^ 2 ≤ 1)
    ∧ (∀ s1 s2 : BodyTup ℚ, dist (negQuat s1) s2 = dist s1 s2)
    ∧ (∀ s1 s2 : BodyTup ℚ, unitQuat s2 → quatUpToSign s1 s2 →
        1 - qdot s1 s2 ^ 2 = 0) := by
  refine ⟨dist_eq, ?_, ?_, ?_, ?_⟩
  · intro s h
    rw [dist_eq]
    obtain ⟨⟨a, b, c⟩, l, m, ⟨w, x, y, z⟩⟩ := s
    unfold unitQuat qdot at h
    simp only at h
    unfold posDist2 qdot
    simp only
    nlinarith [h]
  · intro s1 s2 h1 h2
    obtain ⟨⟨a1, b1, c1⟩, l1, m1, ⟨w1, x1, y1, z1⟩⟩ := s1
    obtain ⟨⟨a2, b2, c2⟩, l2, m2, ⟨w2, x2, y2, z2⟩⟩ := s2
    unfold unitQuat qdot at h1 h2
    unfold qdot
    simp only at h1 h2 ⊢
    constructor
    · nlinarith [sq_nonneg (w1 * x2 - x1 * w2), sq_nonneg (w1 * y2 - y1 * w2),
        sq_nonneg (w1 * z2 - z1 * w2), sq_nonneg (x1 * y2 - y1 * x2),
        sq_nonneg (x1 * z2 - z1 * x2), sq_nonneg (y1 * z2 - z1 * y2)]
    · nlinarith [sq_nonneg (w1 * w2 + x1 * x2 + y1 * y2 + z1 * z2)]
  · intro s1 s2
    rw [dist_eq, dist_eq]
    obtain ⟨⟨a1, b1, c1⟩, l1, m1, ⟨w1, x1, y1, z1⟩⟩ := s1
    obtain ⟨⟨a2, b2, c2⟩, l2, m2, ⟨w2, x2, y2, z2⟩⟩ := s2
    unfold posDist2 qdot negQuat
    simp only
    ring
  · intro s1 s2 h2 hsign
    obtain ⟨⟨a1, b1, c1⟩, l1, m1, ⟨w1, x1, y1, z1⟩⟩ := s1
    obtain ⟨⟨a2, b2, c2⟩, l2, m2, ⟨w2, x2, y2, z2⟩⟩ := s2
    unfold unitQuat qdot at h2
    unfold quatUpToSign negQuat at hsign
    unfold qdot
    simp only [Prod.mk.injEq] at h2 hsign ⊢
    rcases hsign with ⟨hw, hx, hy, hz⟩ | ⟨hw, hx, hy, hz⟩ <;>
      subst hw <;> subst hx <;> subst hy <;> subst hz <;> nlinarith [h2]

/-! ## `MyEnvironment.applyControl` (environment.py lines 118-130) -/

/-- One entry of `self.cdesc[1:]`: a controller descriptor
`(component name, service name, dimensionality)`. -/
structure Channel where
  comp : String
  serv : String
  dim : ℕ
deriving DecidableEq

/-- One request written to the command socket: the pieces interpolated
into `'id %s %s %s\n' % (controller[0], controller[1], con[i:i+controller[2]])`. -/
structure Command where
  comp : String
  serv : String
  args : List ℚ
deriving DecidableEq

/-- The planner's control-space dimension derived from the control
descriptor: the sum of the channel dimensionalities (`cdesc[0]`, which
the simulator reports consistently with the channel entries). -/
def ctrlSpaceDim (channels : List Channel) : ℕ :=
  (channels.map Channel.dim).sum

/-- The dispatch loop of `applyControl`: walk `self.cdesc[1:]` in order,
slice `con[i:i+controller[2]]`, advance `i`, and `sendall` the request.
`sendOk k` says whether the `k`-th `sendall` of this call succeeds;
when it raises, the loop aborts with the exception (`false` flag) and
the remaining commands are never issued. -/
def dispatchLoop (sendOk : ℕ → Bool) (con : List ℚ) :
    List Channel → ℕ → ℕ → List Command × Bool
  | [], _, _ => ([], true)
  | ch :: rest, i, k =>
    if sendOk k then
      let r := dispatchLoop sendOk con rest (i + ch.dim) (k + 1)
      (⟨ch.comp, ch.serv, (con.drop i).take ch.dim⟩ :: r.1, r.2)
    else ([], false)

/-- Result of one `applyControl` call: the requests actually sent, the
value of `self.con` when the call returns (normally or by exception),
and whether the call completed without a transport exception. -/
structure ApplyResult where
  sent : List Command
  cache : List ℚ
  ok : Bool
deriving DecidableEq

/-- `MyEnvironment.applyControl(control)` with fallible sends: compare
the new vector with the cache `self.con`; when unequal, first assign
`self.con = con` (line 125, before any send) and then run the dispatch
loop; when equal, do nothing. -/
def applyControlEx (channels : List Channel) (sendOk : ℕ → Bool)
    (cache con : List ℚ) : ApplyResult :=
  if cache ≠ con then
    let r := dispatchLoop sendOk con channels 0 0
    ⟨r.1, con, r.2⟩
  else ⟨[], cache, true⟩

/-- `applyControl` when every `sendall` succeeds: the issued requests
and the new cache. -/
def applyControl (channels : List Channel) (cache con : List ℚ) :
    List Command × List ℚ :=
  let r := applyControlEx channels (fun _ => true) cache con
  (r.sent, r.cache)

/-- The spec-side description of a full dispatch: one command per
descriptor channel, in descriptor order, each taking the slice of the
control vector matching the channel's declared dimensionality. -/
def specChannelCmds : List Channel → List ℚ → List Command
  | [], _ => []
  | ch :: rest, c => ⟨ch.comp, ch.serv, c.take ch.dim⟩ :: specChannelCmds rest (c.drop ch.dim)

/-- A successful dispatch loop issues exactly the per-channel slices in
descriptor order. -/
theorem dispatchLoop_all_ok (channels : List Channel) (con : List ℚ)
    (i k : ℕ) :
    dispatchLoop (fun _ => true) con channels i k =
      (specChannelCmds channels (con.drop i), true) := by
  induction channels generalizing i k with
  | nil => rfl
  | cons ch rest ih =>
    simp [dispatchLoop, specChannelCmds, ih (ch.dim + i) (k + 1),
      List.drop_drop, Nat.add_comm i ch.dim]

/-- A one-channel control descriptor tail, as in a scene with a single
speed actuator of dimensionality 2. -/
def oneChannel : List Channel := [⟨"motion", "set_speed", 2⟩]

/-- C2 counterexample: with the control vector equal to the cached one
(as the zero vector is right after construction, line 35), the first
call already issues zero commands, not one command per channel. -/
theorem applyControl_first_call_cex :
    (applyControl oneChannel [0, 0] [0, 0]).1 = [] ∧
      oneChannel.length = 1 := by
  constructor
  · rfl
  · rfl

/-- C2 amended: provided the new vector differs from the cache, the
first call issues exactly one command per descriptor channel in
descriptor order, slicing the vector by each channel's declared
dimensionality, and caches the vector; the immediate second call with
the same vector issues zero commands and leaves the cache unchanged;
and this full re-dispatch happens whenever the vector differs from the
cache in any way. -/
theorem applyControl_idempotent (channels : List Channel)
    (cache c : List ℚ) (h : cache ≠ c) :
    applyControl channels cache c = (specChannelCmds channels c, c) ∧
      applyControl channels c c = ([], c) := by
  constructor
  · unfold applyControl applyControlEx
    rw [if_pos h, dispatchLoop_all_ok]
    rfl
  · unfold applyControl applyControlEx
    rw [if_neg (by simp)]

/-- Witness for `applyControl_idempotent` at a concrete differing pair. -/
theorem applyControl_idempotent_witness :
    applyControl oneChannel [0, 0] [3, 4] =
        (specChannelCmds oneChannel [3, 4], [3, 4]) ∧
      applyControl oneChannel [3, 4] [3, 4] = ([], [3, 4]) :=
  applyControl_idempotent oneChannel [0, 0] [3, 4] (by decide)

/-- C4 counterexample: a control vector of length 1 against a
descriptor of total dimension 2 is dispatched anyway — one command is
issued (with a truncated slice), the cache is updated, and no
`DimensionMismatch` failure occurs. -/
theorem applyControl_wrong_length_cex :
    applyControl oneChannel [0, 0] [5] =
        ([⟨"motion", "set_speed", [5]⟩], [5]) ∧
      ([(5 : ℚ)].length ≠ ctrlSpaceDim oneChannel) := by
  constructor
  · rfl
  · decide

/-- C4 amended: `applyControl` performs no length validation.  A control
vector whose length differs from the control-space dimension is treated
exactly like a well-sized one: if it differs from the cache, one command
per channel is issued with the (therefore truncated or over-long)
slices, and the cache is updated to the new vector; the code has no
`DimensionMismatch` failure path. -/
theorem applyControl_no_dimension_check (channels : List Channel)
    (cache c : List ℚ) (hlen : c.length ≠ ctrlSpaceDim channels)
    (h : cache ≠ c) :
    applyControl channels cache c = (specChannelCmds channels c, c) := by
  unfold applyControl applyControlEx
  rw [if_pos h, dispatchLoop_all_ok]
  rfl

/-- Witness for `applyControl_no_dimension_check`. -/
theorem applyControl_no_dimension_check_witness :
    applyControl oneChannel [0, 0] [5] = (specChannelCmds oneChannel [5], [5]) :=
  applyControl_no_dimension_check oneChannel [0, 0] [5] (by decide) (by decide)

/-- C5 counterexample: with the very first `sendall` raising, zero
commands are issued, yet the cache already holds the new vector
`[1, 2]`, not the previously dispatched `[0, 0]`. -/
theorem applyControl_cache_update_cex :
    applyControlEx oneChannel (fun _ => false) [0, 0] [1, 2] =
        ⟨[], [1, 2], false⟩ ∧
      ([(1 : ℚ), 2] ≠ [(0 : ℚ), 0]) := by
  constructor
  · rfl
  · decide

/-- C5 amended: `applyControl` updates `self.con` to the new vector
*before* issuing any channel command (line 125 precedes the dispatch
loop).  Hence after every call that dispatches — even one in which
issuing some channel command fails — the cache equals the vector just
passed in, not the last vector whose commands were all dispatched. -/
theorem applyControl_cache_before_send (channels : List Channel)
    (sendOk : ℕ → Bool) (cache con : List ℚ) (h : cache ≠ con) :
    (applyControlEx channels sendOk cache con).cache = con := by
  unfold applyControlEx
  rw [if_pos h]

/-- Witness for `applyControl_cache_before_send`: the cache holds the
new vector even though every send failed. -/
theorem applyControl_cache_before_send_witness :
    (applyControlEx oneChannel (fun _ => false) [0, 0] [1, 2]).cache = [1, 2] :=
  applyControl_cache_before_send oneChannel (fun _ => false) [0, 0] [1, 2]
    (by decide)

/-! ## `MyEnvironment.worldStep` (environment.py lines 132-137) -/

/-- Python 3's `round` to an integer: to the nearest integer, ties to
the even integer (banker's rounding). -/
def pyRound (q : ℚ) : ℤ :=
  if q - ⌊q⌋ < 1 / 2 then ⌊q⌋
  else if 1 / 2 < q - ⌊q⌋ then ⌊q⌋ + 1
  else if 2 ∣ ⌊q⌋ then ⌊q⌋ else ⌊q⌋ + 1

/-- `MyEnvironment.worldStep(dur)`: issue one blocking `nextTick()` RPC
call per iteration of `range(int(round(dur / (1.0 / 60))))`, each
advancing one fixed 1/60-second increment. -/
def worldStep (dur : ℚ) : List String :=
  List.replicate (pyRound (dur / (1 / 60))).toNat ("nextTick()")

/-- C3 counterexample: the claim quantifies over every requested
duration, but for the negative duration `-1` the code issues zero tick
calls while `round(-1 * 60) = -60 ≠ 0`. -/
theorem worldStep_negative_cex :
    worldStep (-1) = [] ∧ pyRound ((-1 : ℚ) * 60) = -60 ∧ ((-60 : ℤ) ≠ 0) := by
  refine ⟨?_, ?_, by decide⟩
  · show List.replicate (pyRound ((-1 : ℚ) / (1 / 60))).toNat ("nextTick()") = []
    norm_num [pyRound]
  · norm_num [pyRound]

/-- C3 amended: for every *nonnegative* requested duration `d`,
`worldStep` issues exactly `round(d * 60)` blocking `nextTick()` RPC
calls (Python's round, ties to even), each advancing one fixed
1/60-second increment; a negative duration issues zero calls. -/
theorem worldStep_tick_count (d : ℚ) (h : 0 ≤ d) :
    ((worldStep d).length : ℤ) = pyRound (d * 60) ∧
      ∀ c ∈ worldStep d, c = "nextTick()" := by
  have hdiv : d / (1 / 60) = d * 60 := by
    rw [div_div_eq_mul_div, div_one, mul_comm]
  have hnonneg : 0 ≤ pyRound (d * 60) := by
    have h60 : (0 : ℚ) ≤ d * 60 := by positivity
    have hf : 0 ≤ ⌊d * 60⌋ := Int.floor_nonneg.mpr h60
    unfold pyRound
    split
    · exact hf
    · split
      · omega
      · split
        · exact hf
        · omega
  constructor
  · simp only [worldStep, hdiv, List.length_replicate]
    exact Int.toNat_of_nonneg hnonneg
  · intro c hc
    simp only [worldStep] at hc
    exact List.eq_of_mem_replicate hc

/-- Witness for `worldStep_tick_count` at `d = 1/2` (30 ticks). -/
theorem worldStep_tick_count_witness :
    (((worldStep (1 / 2)).length : ℤ) = pyRound ((1 / 2) * 60) ∧
      ∀ c ∈ worldStep (1 / 2), c = "nextTick()") :=
  worldStep_tick_count (1 / 2) (by norm_num)

/-! ## `MyEnvironment.call` (environment.py lines 51-62) -/

/-- The ways the `try:` body of `call` can raise: `sockS.sendall`
fails, `sockS.recv` fails (for instance the connection is closed), or
`eval` of the received reply text fails to decode it. -/
inductive CallError where
  | sendFailed
  | recvFailed
  | decodeFailed
deriving DecidableEq

/-- The `try:` body of `call`: `self.sockS.sendall(cmd.encode())`, then
`self.sockS.recv(16384)`, then `eval` of the reply.  The transport and
`eval` are external collaborators; one call's interaction with them is
its outcome: `sendOk` is whether `sendall` returns, `recvd` the bytes
`recv` returns (`none` when it raises), `evalFn` the decoder (`none`
when `eval` raises). -/
def callBody {α : Type} (sendOk : Bool) (recvd : Option (List Char))
    (evalFn : List Char → Option α) : Except CallError α :=
  if sendOk then
    match recvd with
    | none => .error .recvFailed
    | some s =>
      match evalFn s with
      | none => .error .decodeFailed
      | some v => .ok v
  else .error .sendFailed

/-- `MyEnvironment.call(cmd)`: run the try body once; on any exception
set `self.simRunning = False` and re-raise the same exception (bare
`raise`); on success return the decoded value with `simRunning`
untouched.  The first component is `simRunning` after the call. -/
def call {α : Type} (simRunning : Bool) (sendOk : Bool)
    (recvd : Option (List Char)) (evalFn : List Char → Option α) :
    Bool × Except CallError α :=
  match callBody sendOk recvd evalFn with
  | .ok v => (simRunning, .ok v)
  | .error e => (false, .error e)

/-- C6: on any transport error — failed send, failed receive/closed
connection, or a reply that fails to decode — `call` marks the handle
non-running and propagates that very error to the caller, with no
retry and no recovery (its result is exactly the outcome of the single
try-body run); a successful call returns the decoded value and leaves
`simRunning` unchanged. -/
theorem call_error_handling {α : Type} (simRunning sendOk : Bool)
    (recvd : Option (List Char)) (evalFn : List Char → Option α) :
    ((call simRunning sendOk recvd evalFn).2 = callBody sendOk recvd evalFn)
    ∧ (∀ e, callBody sendOk recvd evalFn = .error e →
        call simRunning sendOk recvd evalFn = (false, .error e))
    ∧ (∀ v, callBody sendOk recvd evalFn = .ok v →
        call simRunning sendOk recvd evalFn = (simRunning, .ok v)) := by
  unfold call
  cases hb : callBody sendOk recvd evalFn with
  | ok v => exact ⟨rfl, fun e he => by simp at he, fun w hw => by
      simp only [Except.ok.injEq] at hw; rw [hw]⟩
  | error e => exact ⟨rfl, fun f hf => by
      simp only [Except.error.injEq] at hf; rw [hf], fun w hw => by simp at hw⟩

/-! ## `MyGoal.isSatisfied_Py` (environment.py lines 193-206) -/

/-- `state[j]` read as a 3-vector sub-state: fails (Python raises) when
the index is out of range or the block is not a 3-vector. -/
def getVecB {α : Type} (state : List (Block α)) (j : ℕ) : Option (α × α × α) :=
  match state.get? j with
  | some (.vec x y z) => some (x, y, z)
  | _ => none

/-- `state[j]` read as a quaternion sub-state (fields `.w .x .y .z`):
fails when the index is out of range or the block is not a quaternion. -/
def getQuatB {α : Type} (state : List (Block α)) (j : ℕ) : Option (α × α × α × α) :=
  match state.get? j with
  | some (.quat w x y z) => some (w, x, y, z)
  | _ => none

/-- A goal criterion as `getGoalCriteria()` returns it: the pair
`(rigid-body index, goal body state)`; `crit[1]` is indexed by `dist`
at `[0]` (position) and `[3]` (orientation). -/
abbrev Criterion := ℕ × BodyTup ℚ

/-- Python `len(crit)` where `crit` is a criterion: a 2-tuple, so 2
regardless of how many criteria the goal has. -/
def critLen (_ : Criterion) : ℕ := 2

/-- The loop body of `isSatisfied_Py` for one criterion: build
`stateTup` from the four blocks of body `crit[0]` (`quat = state[4*crit[0]+3]`,
positions/velocities from `state[4*crit[0]+k]`) and return
`self.dist(stateTup, crit[1])`. -/
def critDist (state : List (Block ℚ)) (crit : Criterion) : Option ℚ := do
  let q ← getQuatB state (4 * crit.1 + 3)
  let p ← getVecB state (4 * crit.1 + 0)
  let l ← getVecB state (4 * crit.1 + 1)
  let a ← getVecB state (4 * crit.1 + 2)
  return dist ⟨p, l, a, q⟩ crit.2

/-- The criteria loop of `isSatisfied_Py`: starting from
`self.distance = 0`, do `self.distance += self.dist(stateTup, crit[1])`
for each criterion in order. -/
def sumDists (state : List (Block ℚ)) : List Criterion → ℚ → Option ℚ
  | [], acc => some acc
  | crit :: rest, acc => do
      let d ← critDist state crit
      sumDists state rest (acc + d)

/-- `MyGoal.isSatisfied_Py(state)`: accumulate `self.distance` over the
criteria, then test `self.distance > len(crit) * 0.1` where `crit` is
the variable left bound by the loop — the *last* criterion.  `none`
when the Python raises: a `NameError` when the criteria list is empty
(`crit` was never bound), or an indexing error from the loop body.
Returns `(self.distance, satisfied)`.  The float literal `0.1` is
modelled by the rational `1/10`. -/
def isSatisfied_Py (criteria : List Criterion) (state : List (Block ℚ)) :
    Option (ℚ × Bool) := do
  let distance ← sumDists state criteria 0
  let lastCrit ← criteria.getLast?
  if distance > (critLen lastCrit : ℚ) * (1 / 10) then
    return (distance, false)
  else
    return (distance, true)

/-- A goal body state at squared position distance `0.16` from the
origin, with identical unit orientation. -/
def c1Target : BodyTup ℚ :=
  ⟨(2 / 5, 0, 0), (0, 0, 0), (0, 0, 0), (1, 0, 0, 0)⟩

/-- A one-body world state at the origin with unit orientation. -/
def c1State : List (Block ℚ) :=
  [.vec 0 0 0, .vec 0 0 0, .vec 0 0 0, .quat 1 0 0 0]

/-- C1 (code bug): with a single criterion at distance `0.16`, the code
reports *satisfied*: its threshold is `len(crit) * 0.1` where `crit` is
the last criterion, a 2-tuple, so the threshold is always `0.2` — not
`0.1 * criteria_count = 0.1` as specified, which `0.16` exceeds. -/
theorem isSatisfied_threshold_bug :
    isSatisfied_Py [(0, c1Target)] c1State = some (4 / 25, true) ∧
      ¬ ((4 / 25 : ℚ) ≤ ([(0, c1Target)] : List Criterion).length * (1 / 10)) := by
  constructor
  · norm_num [isSatisfied_Py, sumDists, critDist, getQuatB, getVecB, c1State,
      c1Target, dist, posGet, quatGet, List.range_succ, critLen, List.getLast?]
  · norm_num

/-- C10: with an empty criteria list, `isSatisfied_Py` returns no
result — the threshold test reads the loop variable `crit`, which the
loop over the empty list never bound (a `NameError`); conversely any
run that produced a result had at least one criterion. -/
theorem isSatisfied_empty_criteria :
    (∀ state, isSatisfied_Py [] state = none) ∧
      (∀ criteria state r, isSatisfied_Py criteria state = some r →
        criteria ≠ []) := by
  constructor
  · intro state
    rfl
  · intro criteria state r h hemp
    subst hemp
    exact Option.noConfusion (show (none : Option (ℚ × Bool)) = some r from h)

/-! ## `MyEnvironment.readState` (environment.py lines 72-90) -/

/-- One body entry of the decoded `extractState()` reply: a sequence of
blocks, each a sequence of floats. -/
abbrev PyBody := List (List ℚ)

/-- `state[i][k] = v`: fails (Python raises) when `i` is out of range,
the block at `i` is not a 3-vector sub-state, or `k` is not one of its
component indices. -/
def setVecComp (state : List (Block ℚ)) (i k : ℕ) (v : ℚ) :
    Option (List (Block ℚ)) :=
  match state[i]? with
  | some (.vec x y z) =>
    match k with
    | 0 => some (state.set i (.vec v y z))
    | 1 => some (state.set i (.vec x v z))
    | 2 => some (state.set i (.vec x y v))
    | _ => none
  | _ => none

/-- `state[i].w = w; state[i].x = x; state[i].y = y; state[i].z = z`:
fails when `i` is out of range or the block is not a quaternion. -/
def setQuatComps (state : List (Block ℚ)) (i : ℕ) (w x y z : ℚ) :
    Option (List (Block ℚ)) :=
  match state[i]? with
  | some (.quat _ _ _ _) => some (state.set i (.quat w x y z))
  | _ => none

/-- The inner `for k in range(3)` loop: `state[i][k] = obj[j][k]`. -/
def copy3 (state : List (Block ℚ)) (i : ℕ) (blk : List ℚ) :
    Option (List (Block ℚ)) := do
  let v0 ← blk[0]?
  let st0 ← setVecComp state i 0 v0
  let v1 ← blk[1]?
  let st1 ← setVecComp st0 i 1 v1
  let v2 ← blk[2]?
  setVecComp st1 i 2 v2

/-- The body of the `for obj in simState` loop: copy the three
3-vectors `obj[0] obj[1] obj[2]` into `state[i] .. state[i+2]`, then
the 4-vector `obj[3]` into the quaternion `state[i+3]`. -/
def readBody (state : List (Block ℚ)) (i : ℕ) (obj : PyBody) :
    Option (List (Block ℚ)) := do
  let b0 ← obj[0]?
  let st0 ← copy3 state i b0
  let b1 ← obj[1]?
  let st1 ← copy3 st0 (i + 1) b1
  let b2 ← obj[2]?
  let st2 ← copy3 st1 (i + 2) b2
  let q ← obj[3]?
  let w ← q[0]?
  let x ← q[1]?
  let y ← q[2]?
  let z ← q[3]?
  setQuatComps st2 (i + 3) w x y z

/-- The `for obj in simState` loop with the running block index `i`. -/
def readStateLoop : List (Block ℚ) → ℕ → List PyBody → Option (List (Block ℚ))
  | st, _, [] => some st
  | st, i, obj :: rest => do
      let st' ← readBody st i obj
      readStateLoop st' (i + 4) rest

/-- `MyEnvironment.readState(state)` applied to the decoded reply: walk
the reply's bodies, writing into consecutive state blocks from `i = 0`;
`none` when an access raises. -/
def readState (state : List (Block ℚ)) (simState : List PyBody) :
    Option (List (Block ℚ)) :=
  readStateLoop state 0 simState

/-- The block at index `j` exists and is a 3-vector (`v = true`) or a
quaternion (`v = false`). -/
def kindIs (st : List (Block ℚ)) (j : ℕ) (v : Bool) : Bool :=
  (st.map blockKind)[j]? == some v

/-- The state holds `n` bodies' worth of blocks starting at index `i`:
three 3-vector blocks then a quaternion block, per body.  The state may
be longer: the layout is only constrained for those `4 * n` blocks. -/
def layoutB (st : List (Block ℚ)) : ℕ → ℕ → Bool
  | _, 0 => true
  | i, n + 1 =>
    kindIs st i true && kindIs st (i + 1) true && kindIs st (i + 2) true &&
      kindIs st (i + 3) false && layoutB st (i + 4) n

/-- A reply body entry with the expected per-block arity: at least four
blocks, the first three with at least 3 entries and the fourth with at
least 4 (the accesses `obj[j][k]`, `obj[3][0..3]` succeed). -/
def wfBody (obj : PyBody) : Bool :=
  match obj[0]?, obj[1]?, obj[2]?, obj[3]? with
  | some b0, some b1, some b2, some q =>
    decide (3 ≤ b0.length) && decide (3 ≤ b1.length) &&
      decide (3 ≤ b2.length) && decide (4 ≤ q.length)
  | _, _, _, _ => false

/-- Setting an element to the value it already has is the identity. -/
theorem set_same {α : Type} :
    ∀ (l : List α) (i : ℕ) (a : α), l[i]? = some a → l.set i a = l
  | [], _, _, h => by simp at h
  | b :: l, 0, a, h => by
    rw [List.getElem?_cons_zero] at h
    injection h with h
    subst h
    rfl
  | b :: l, i + 1, a, h => by
    rw [List.getElem?_cons_succ] at h
    show b :: l.set i a = b :: l
    rw [set_same l i a h]

/-- `setVecComp` succeeds on a 3-vector block with a component index
below 3, and does not change any block's kind. -/
theorem setVecComp_some (st : List (Block ℚ)) (i k : ℕ) (v : ℚ)
    (h : kindIs st i true = true) (hk : k < 3) :
    ∃ st', setVecComp st i k v = some st' ∧
      st'.map blockKind = st.map blockKind := by
  unfold kindIs at h
  rw [beq_iff_eq, List.getElem?_map] at h
  obtain ⟨b, hb, hkind⟩ : ∃ b, st[i]? = some b ∧ blockKind b = true := by
    cases hget : st[i]? with
    | none => rw [hget] at h; simp at h
    | some b => rw [hget] at h; simp at h; exact ⟨b, rfl, h⟩
  cases b with
  | quat w x y z => simp [blockKind] at hkind
  | vec x y z =>
    have hmap : ∀ b' : Block ℚ, blockKind b' = true →
        (st.set i b').map blockKind = st.map blockKind := by
      intro b' hb'
      rw [List.map_set, hb']
      apply set_same
      rw [List.getElem?_map, hb]
      simp [hkind]
    interval_cases k
    · exact ⟨st.set i (.vec v y z), by simp [setVecComp, hb], hmap (.vec v y z) rfl⟩
    · exact ⟨st.set i (.vec x v z), by simp [setVecComp, hb], hmap (.vec x v z) rfl⟩
    · exact ⟨st.set i (.vec x y v), by simp [setVecComp, hb], hmap (.vec x y v) rfl⟩

/-- `setQuatComps` succeeds on a quaternion block and does not change
any block's kind. -/
theorem setQuatComps_some (st : List (Block ℚ)) (i : ℕ) (w x y z : ℚ)
    (h : kindIs st i false = true) :
    ∃ st', setQuatComps st i w x y z = some st' ∧
      st'.map blockKind = st.map blockKind := by
  unfold kindIs at h
  rw [beq_iff_eq, List.getElem?_map] at h
  obtain ⟨b, hb, hkind⟩ : ∃ b, st[i]? = some b ∧ blockKind b = false := by
    cases hget : st[i]? with
    | none => rw [hget] at h; simp at h
    | some b => rw [hget] at h; simp at h; exact ⟨b, rfl, h⟩
  cases b with
  | vec x' y' z' => simp [blockKind] at hkind
  | quat w' x' y' z' =>
    refine ⟨st.set i (.quat w x y z), by simp [setQuatComps, hb], ?_⟩
    rw [List.map_set]
    show (st.map blockKind).set i false = _
    apply set_same
    rw [List.getElem?_map, hb]
    simp [hkind]

/-- Block kinds determine `kindIs`. -/
theorem kindIs_congr {st' st : List (Block ℚ)}
    (hm : st'.map blockKind = st.map blockKind) (j : ℕ) (v : Bool) :
    kindIs st' j v = kindIs st j v := by
  unfold kindIs
  rw [hm]

/-- Block kinds determine `layoutB`. -/
theorem layoutB_congr {st' st : List (Block ℚ)}
    (hm : st'.map blockKind = st.map blockKind) :
    ∀ (n i : ℕ), layoutB st' i n = layoutB st i n := by
  intro n
  induction n with
  | zero => intro i; rfl
  | succ n ih =>
    intro i
    simp only [layoutB, kindIs_congr hm, ih]

/-- `copy3` succeeds on a 3-vector block given at least three source
entries, preserving every block's kind. -/
theorem copy3_some (st : List (Block ℚ)) (i : ℕ) (blk : List ℚ)
    (h : kindIs st i true = true) (hlen : 3 ≤ blk.length) :
    ∃ st', copy3 st i blk = some st' ∧
      st'.map blockKind = st.map blockKind := by
  obtain ⟨v0, h0⟩ : ∃ v, blk[0]? = some v := ⟨_, List.getElem?_eq_getElem (by omega)⟩
  obtain ⟨v1, h1⟩ : ∃ v, blk[1]? = some v := ⟨_, List.getElem?_eq_getElem (by omega)⟩
  obtain ⟨v2, h2⟩ : ∃ v, blk[2]? = some v := ⟨_, List.getElem?_eq_getElem (by omega)⟩
  obtain ⟨st0, hst0, hm0⟩ := setVecComp_some st i 0 v0 h (by omega)
  obtain ⟨st1, hst1, hm1⟩ := setVecComp_some st0 i 1 v1
    (by rw [kindIs_congr hm0]; exact h) (by omega)
  obtain ⟨st2, hst2, hm2⟩ := setVecComp_some st1 i 2 v2
    (by rw [kindIs_congr hm1, kindIs_congr hm0]; exact h) (by omega)
  refine ⟨st2, ?_, by rw [hm2, hm1, hm0]⟩
  simp [copy3, h0, h1, h2, hst0, hst1, hst2]

/-- `readBody` succeeds when the four target blocks have the right
kinds and the reply body has the expected arities, preserving every
block's kind. -/
theorem readBody_some (st : List (Block ℚ)) (i : ℕ) (obj : PyBody)
    (h0 : kindIs st i true = true) (h1 : kindIs st (i + 1) true = true)
    (h2 : kindIs st (i + 2) true = true) (h3 : kindIs st (i + 3) false = true)
    (hwf : wfBody obj = true) :
    ∃ st', readBody st i obj = some st' ∧
      st'.map blockKind = st.map blockKind := by
  unfold wfBody at hwf
  cases hb0 : obj[0]? with
  | none => rw [hb0] at hwf; simp at hwf
  | some b0 =>
  cases hb1 : obj[1]? with
  | none => rw [hb0, hb1] at hwf; simp at hwf
  | some b1 =>
  cases hb2 : obj[2]? with
  | none => rw [hb0, hb1, hb2] at hwf; simp at hwf
  | some b2 =>
  cases hb3 : obj[3]? with
  | none => rw [hb0, hb1, hb2, hb3] at hwf; simp at hwf
  | some q =>
  rw [hb0, hb1, hb2, hb3] at hwf
  simp only [Bool.and_eq_true, decide_eq_true_eq] at hwf
  obtain ⟨⟨⟨hl0, hl1⟩, hl2⟩, hlq⟩ := hwf
  obtain ⟨st0, hst0, hm0⟩ := copy3_some st i b0 h0 hl0
  obtain ⟨st1, hst1, hm1⟩ := copy3_some st0 (i + 1) b1
    (by rw [kindIs_congr hm0]; exact h1) hl1
  obtain ⟨st2, hst2, hm2⟩ := copy3_some st1 (i + 2) b2
    (by rw [kindIs_congr hm1, kindIs_congr hm0]; exact h2) hl2
  obtain ⟨w, hq0⟩ : ∃ v, q[0]? = some v := ⟨_, List.getElem?_eq_getElem (by omega)⟩
  obtain ⟨x, hq1⟩ : ∃ v, q[1]? = some v := ⟨_, List.getElem?_eq_getElem (by omega)⟩
  obtain ⟨y, hq2⟩ : ∃ v, q[2]? = some v := ⟨_, List.getElem?_eq_getElem (by omega)⟩
  obtain ⟨z, hq3⟩ : ∃ v, q[3]? = some v := ⟨_, List.getElem?_eq_getElem (by omega)⟩
  obtain ⟨st3, hst3, hm3⟩ := setQuatComps_some st2 (i + 3) w x y z
    (by rw [kindIs_congr hm2, kindIs_congr hm1, kindIs_congr hm0]; exact h3)
  refine ⟨st3, ?_, by rw [hm3, hm2, hm1, hm0]⟩
  simp [readBody, hb0, hb1, hb2, hb3, hst0, hst1, hst2, hst3, hq0, hq1, hq2, hq3]

/-- The reply loop succeeds whenever the state provides rightly-shaped
blocks for every reply body, regardless of whether the state has room
for more bodies than the reply holds. -/
theorem readStateLoop_isSome :
    ∀ (bodies : List PyBody) (st : List (Block ℚ)) (i : ℕ),
      layoutB st i bodies.length = true →
      (∀ b ∈ bodies, wfBody b = true) →
      (readStateLoop st i bodies).isSome := by
  intro bodies
  induction bodies with
  | nil =>
    intro st i _ _
    rfl
  | cons obj rest ih =>
    intro st i hl hwf
    simp only [List.length_cons, layoutB, Bool.and_eq_true] at hl
    obtain ⟨⟨⟨⟨hk0, hk1⟩, hk2⟩, hk3⟩, hrest⟩ := hl
    obtain ⟨st', hst', hm⟩ := readBody_some st i obj hk0 hk1 hk2 hk3
      (hwf obj (List.mem_cons_self obj rest))
    have : (readStateLoop st' (i + 4) rest).isSome := by
      apply ih st' (i + 4)
      · rw [layoutB_congr hm]
        exact hrest
      · intro b hb
        exact hwf b (List.mem_cons_of_mem obj hb)
    simpa [readStateLoop, hst']

/-- C9 amended: `readState` performs no body-count or arity validation
and has no `MalformedState` failure path.  Whenever every reply body
has the expected 4-block shape and the state has blocks of the right
kinds for them, decoding succeeds silently — in particular for a reply
with *fewer* bodies than the session's body count, which overwrites
only the bodies present and leaves the rest of the state untouched;
shape mismatches surface only as Python indexing/attribute errors. -/
theorem readState_no_count_check (bodies : List PyBody)
    (st : List (Block ℚ)) (hl : layoutB st 0 bodies.length = true)
    (hwf : ∀ b ∈ bodies, wfBody b = true) :
    (readState st bodies).isSome :=
  readStateLoop_isSome bodies st 0 hl hwf

/-- A two-body session state: eight blocks, all at the origin. -/
def c9State : List (Block ℚ) :=
  [.vec 0 0 0, .vec 0 0 0, .vec 0 0 0, .quat 1 0 0 0,
   .vec 0 0 0, .vec 0 0 0, .vec 0 0 0, .quat 1 0 0 0]

/-- A reply holding a single body. -/
def c9Body : PyBody := [[1, 2, 3], [4, 5, 6], [7, 8, 9], [10, 11, 12, 13]]

/-- C9 counterexample: a reply with one body against a two-body session
state does not fail at all — `readState` silently writes the one body
and leaves the second body's blocks untouched. -/
theorem readState_partial_write_cex :
    readState c9State [c9Body] =
      some [.vec 1 2 3, .vec 4 5 6, .vec 7 8 9, .quat 10 11 12 13,
        .vec 0 0 0, .vec 0 0 0, .vec 0 0 0, .quat 1 0 0 0] ∧
      [c9Body].length ≠ 2 := by
  constructor
  · rfl
  · decide

/-- Witness for `readState_no_count_check`: the one-body reply into the
two-body state decodes without error. -/
theorem readState_no_count_check_witness :
    (readState c9State [c9Body]).isSome :=
  readState_no_count_check [c9Body] c9State (by decide) (by decide)

/-! ## The state codec: `stateToList` and `writeState` (lines 92-116)

Python strings are modelled as `List Char`.  A Python float here is a
`PyFloat`: binary floats cannot be embedded directly, but every finite
float's `repr` is an exact decimal literal, modelled by a mantissa and
a decimal exponent printed in scientific notation (a literal form the
simulator's `eval` accepts); what matters for the round trip is that
finite reprs consist only of digits, `-` and `e`, and that `inf`, `-inf`
and `nan` print exactly as those tokens, as Python's `repr` does. -/

/-- A Python float as the codec sees it: the finite value `m * 10^e`,
positive infinity, negative infinity, or NaN. -/
inductive PyFloat where
  | finite (m : ℤ) (e : ℤ)
  | inf
  | ninf
  | nan
deriving DecidableEq

/-- The ASCII digit character for `d < 10`. -/
def digCh (d : ℕ) : Char := Char.ofNat (48 + d)

/-- Our decimal digit test: code point between 48 and 57. -/
def isDigitC (c : Char) : Bool := 48 ≤ c.toNat && c.toNat ≤ 57

/-- The decimal digits of `n`, most significant first. -/
def natChars (n : ℕ) : List Char :=
  if n = 0 then ['0'] else ((Nat.digits 10 n).reverse).map digCh

/-- A signed decimal integer literal. -/
def intChars (m : ℤ) : List Char :=
  if m < 0 then '-' :: natChars m.natAbs else natChars m.natAbs

/-- `repr` of one float: a finite value as the exact scientific literal
`<m>e<e>`, and `inf`/`-inf`/`nan` as Python prints them. -/
def reprFloat : PyFloat → List Char
  | .finite m e => intChars m ++ 'e' :: intChars e
  | .inf => ['i', 'n', 'f']
  | .ninf => ['-', 'i', 'n', 'f']
  | .nan => ['n', 'a', 'n']

/-- `repr` of a 3-tuple, with the scalar printer `pf`. -/
def reprTripWith (pf : PyFloat → List Char) (t : PyFloat × PyFloat × PyFloat) :
    List Char :=
  '(' :: (pf t.1 ++ ',' :: ' ' :: (pf t.2.1 ++ ',' :: ' ' :: (pf t.2.2 ++ [')'])))

/-- `repr` of a 4-tuple, with the scalar printer `pf`. -/
def reprQuadWith (pf : PyFloat → List Char)
    (t : PyFloat × PyFloat × PyFloat × PyFloat) : List Char :=
  '(' :: (pf t.1 ++ ',' :: ' ' :: (pf t.2.1 ++ ',' :: ' ' ::
    (pf t.2.2.1 ++ ',' :: ' ' :: (pf t.2.2.2 ++ [')']))))

/-- `repr` of one body tuple `(pos, lin, ang, quat)`. -/
def reprBodyWith (pf : PyFloat → List Char) (b : BodyTup PyFloat) : List Char :=
  '(' :: (reprTripWith pf b.pos ++ ',' :: ' ' :: (reprTripWith pf b.lin ++
    ',' :: ' ' :: (reprTripWith pf b.ang ++ ',' :: ' ' ::
      (reprQuadWith pf b.quat ++ [')']))))

/-- The tail of a list `repr`: `, <body>` repeated, then `]`. -/
def reprBodiesAuxWith (pf : PyFloat → List Char) :
    List (BodyTup PyFloat) → List Char
  | [] => [']']
  | b :: rest => ',' :: ' ' :: (reprBodyWith pf b ++ reprBodiesAuxWith pf rest)

/-- Python `repr` of the list of body tuples. -/
def reprBodiesWith (pf : PyFloat → List Char) :
    List (BodyTup PyFloat) → List Char
  | [] => ['[', ']']
  | b :: rest => '[' :: (reprBodyWith pf b ++ reprBodiesAuxWith pf rest)

/-- The body loop of `MyEnvironment.stateToList`: for
`i in range(0, rigidBodies_ * 4, 4)`, append the tuple
`((state[i][0..2]), (state[i+1][0..2]), (state[i+2][0..2]),
(state[i+3].w, .x, .y, .z))`. -/
def stateToListLoop (state : List (Block PyFloat)) :
    ℕ → ℕ → Option (List (BodyTup PyFloat))
  | _, 0 => some []
  | i, n + 1 => do
      let p ← getVecB state i
      let l ← getVecB state (i + 1)
      let a ← getVecB state (i + 2)
      let q ← getQuatB state (i + 3)
      let rest ← stateToListLoop state (i + 4) n
      return ⟨p, l, a, q⟩ :: rest

/-- `MyEnvironment.stateToList(state)` for a session with `rb` rigid
bodies. -/
def stateToList (rb : ℕ) (state : List (Block PyFloat)) :
    Option (List (BodyTup PyFloat)) :=
  stateToListLoop state 0 rb

/-- The pattern of `s.replace('nan', ...)`. -/
def nanPat : List Char := ['n', 'a', 'n']

/-- The pattern of `s.replace('inf', ...)`. -/
def infPat : List Char := ['i', 'n', 'f']

/-- The replacement text `float("nan")`. -/
def nanRepl : List Char :=
  ['f', 'l', 'o', 'a', 't', '(', '"', 'n', 'a', 'n', '"', ')']

/-- The replacement text `float("inf")`. -/
def infRepl : List Char :=
  ['f', 'l', 'o', 'a', 't', '(', '"', 'i', 'n', 'f', '"', ')']

/-- Python `str.replace(old, new)` with recursion fuel: scan left to
right; at a position where `old` is a prefix, emit `new` and skip the
match, otherwise keep one character.  The wrapper always supplies
`fuel = length`, which suffices since every step consumes at least one
character (the patterns used are nonempty). -/
def pyReplaceF (pat repl : List Char) : ℕ → List Char → List Char
  | 0, s => s
  | _ + 1, [] => []
  | f + 1, c :: rest =>
    if pat ≠ [] ∧ pat.isPrefixOf (c :: rest) then
      repl ++ pyReplaceF pat repl f ((c :: rest).drop pat.length)
    else
      c :: pyReplaceF pat repl f rest

/-- Python `s.replace(old, new)`. -/
def pyReplace (pat repl s : List Char) : List Char :=
  pyReplaceF pat repl s.length s

/-- The scalar printer after `.replace('nan', 'float("nan")')`. -/
def reprFloat1 : PyFloat → List Char
  | .nan => nanRepl
  | f => reprFloat f

/-- The scalar printer after both replacements: the parser-safe form
`writeState` actually submits. -/
def reprFloat2 : PyFloat → List Char
  | .finite m e => intChars m ++ 'e' :: intChars e
  | .inf => infRepl
  | .ninf => '-' :: infRepl
  | .nan => nanRepl

/-- The encoding of `writeState` (lines 111-113): `repr` of the body
tuples, then `.replace('nan', 'float("nan")')`, then
`.replace('inf', 'float("inf")')`. -/
def encodeText (bodies : List (BodyTup PyFloat)) : List Char :=
  pyReplace infPat infRepl
    (pyReplace nanPat nanRepl (reprBodiesWith reprFloat bodies))

/-- `MyEnvironment.writeState(state)`: the literal text interpolated
into `submitState(%s)` and sent to the simulator. -/
def writeStateText (rb : ℕ) (state : List (Block PyFloat)) :
    Option (List Char) :=
  (stateToList rb state).map encodeText

/-! ### The simulator-side decoder

The argument of `submitState` is evaluated by the simulator as a
Python expression.  The decoder models that evaluation for the grammar
`writeState` emits: a list of nested tuples of float literals, where a
non-finite float appears as `float("nan")`, `float("inf")` or
`-float("inf")`. -/

/-- Consume the exact literal `lit`. -/
def parseLit (lit s : List Char) : Option (List Char) :=
  if lit.isPrefixOf s then some (s.drop lit.length) else none

/-- The value of a digit string, most significant first. -/
def digitsVal (ds : List Char) : ℕ :=
  ds.foldl (fun a c => 10 * a + (c.toNat - 48)) 0

/-- Consume a nonempty run of digits. -/
def parseNat (s : List Char) : Option (ℕ × List Char) :=
  if s.takeWhile isDigitC = [] then none
  else some (digitsVal (s.takeWhile isDigitC), s.dropWhile isDigitC)

/-- Consume an optionally negated decimal integer. -/
def parseInt (s : List Char) : Option (ℤ × List Char) :=
  if s.head? = some '-' then
    (parseNat s.tail).map (fun p => (-(p.1 : ℤ), p.2))
  else
    (parseNat s).map (fun p => ((p.1 : ℤ), p.2))

/-- Consume one float expression: `float("nan")`, `float("inf")`,
`-float("inf")`, or the scientific literal `<m>e<e>`. -/
def parseScalar (s : List Char) : Option (PyFloat × List Char) :=
  if nanRepl.isPrefixOf s then some (.nan, s.drop nanRepl.length)
  else if infRepl.isPrefixOf s then some (.inf, s.drop infRepl.length)
  else if ('-' :: infRepl).isPrefixOf s then
    some (.ninf, s.drop ('-' :: infRepl).length)
  else do
    let (m, s1) ← parseInt s
    let s2 ← parseLit ['e'] s1
    let (e, s3) ← parseInt s2
    return (PyFloat.finite m e, s3)

/-- Consume a parenthesised 3-tuple of floats. -/
def parseTrip (s : List Char) :
    Option ((PyFloat × PyFloat × PyFloat) × List Char) := do
  let s ← parseLit ['('] s
  let (a, s) ← parseScalar s
  let s ← parseLit [',', ' '] s
  let (b, s) ← parseScalar s
  let s ← parseLit [',', ' '] s
  let (c, s) ← parseScalar s
  let s ← parseLit [')'] s
  return ((a, b, c), s)

/-- Consume a parenthesised 4-tuple of floats. -/
def parseQuad (s : List Char) :
    Option ((PyFloat × PyFloat × PyFloat × PyFloat) × List Char) := do
  let s ← parseLit ['('] s
  let (a, s) ← parseScalar s
  let s ← parseLit [',', ' '] s
  let (b, s) ← parseScalar s
  let s ← parseLit [',', ' '] s
  let (c, s) ← parseScalar s
  let s ← parseLit [',', ' '] s
  let (d, s) ← parseScalar s
  let s ← parseLit [')'] s
  return ((a, b, c, d), s)

/-- Consume one body tuple `((pos), (lin), (ang), (quat))`. -/
def parseBody (s : List Char) : Option (BodyTup PyFloat × List Char) := do
  let s ← parseLit ['('] s
  let (p, s) ← parseTrip s
  let s ← parseLit [',', ' '] s
  let (l, s) ← parseTrip s
  let s ← parseLit [',', ' '] s
  let (a, s) ← parseTrip s
  let s ← parseLit [',', ' '] s
  let (q, s) ← parseQuad s
  let s ← parseLit [')'] s
  return (⟨p, l, a, q⟩, s)

/-- Consume `, <body>` repeatedly, then the closing `]` (with fuel; the
callers supply the input length, which suffices since every round
consumes at least one character). -/
def parseBodiesAux : ℕ → List Char → Option (List (BodyTup PyFloat) × List Char)
  | 0, _ => none
  | fuel + 1, s =>
    match parseLit [']'] s with
    | some r => some ([], r)
    | none => do
      let s1 ← parseLit [',', ' '] s
      let (b, s2) ← parseBody s1
      let (rest, r) ← parseBodiesAux fuel s2
      return (b :: rest, r)

/-- Decode a whole submitted text: the simulator-side `eval` of the
list-of-tuples literal, accepting exactly the grammar above with
nothing left over. -/
def decodeBodies (s : List Char) : Option (List (BodyTup PyFloat)) := do
  let s1 ← parseLit ['['] s
  match parseLit [']'] s1 with
  | some r => if r = [] then some [] else none
  | none => do
    let (b, s2) ← parseBody s1
    let (rest, r) ← parseBodiesAux s2.length s2
    if r = [] then some (b :: rest) else none

/-! ### Correctness of the two `replace` passes -/

/-- `pyReplaceF` does not depend on the fuel once it covers the input
length. -/
theorem pyReplaceF_fuel_irrel (pat repl : List Char) :
    ∀ (f1 f2 : ℕ) (s : List Char), s.length ≤ f1 → s.length ≤ f2 →
      pyReplaceF pat repl f1 s = pyReplaceF pat repl f2 s := by
  intro f1
  induction f1 with
  | zero =>
    intro f2 s h1 _
    have hs : s = [] := List.length_eq_zero.mp (Nat.le_zero.mp h1)
    subst hs
    cases f2 <;> rfl
  | succ f1 ih =>
    intro f2 s h1 h2
    cases s with
    | nil => cases f2 <;> rfl
    | cons c rest =>
      cases f2 with
      | zero => simp at h2
      | succ f2 =>
        simp only [pyReplaceF]
        split_ifs with h
        · have hpat : 1 ≤ pat.length := List.length_pos.mpr h.1
          have hlen : ((c :: rest).drop pat.length).length =
              (c :: rest).length - pat.length := List.length_drop ..
          simp only [List.length_cons] at h1 h2 hlen
          rw [ih f2 _ (by omega) (by omega)]
        · simp only [List.length_cons] at h1 h2
          rw [ih f2 rest (by omega) (by omega)]

/-- One unfolding step of `pyReplace`. -/
theorem pyReplace_cons (pat repl : List Char) (c : Char) (s : List Char) :
    pyReplace pat repl (c :: s) =
      if pat ≠ [] ∧ pat.isPrefixOf (c :: s) then
        repl ++ pyReplace pat repl ((c :: s).drop pat.length)
      else
        c :: pyReplace pat repl s := by
  show pyReplaceF pat repl (s.length + 1) (c :: s) = _
  simp only [pyReplaceF]
  split_ifs with h
  · congr 1
    apply pyReplaceF_fuel_irrel
    · have hpat : 1 ≤ pat.length := List.length_pos.mpr h.1
      have hlen : ((c :: s).drop pat.length).length =
          (c :: s).length - pat.length := List.length_drop ..
      simp only [List.length_cons] at hlen
      omega
    · exact le_refl _
  · rfl

/-- A match at the head of the input is replaced. -/
theorem pyReplace_match (pat repl s : List Char) (h : pat ≠ []) :
    pyReplace pat repl (pat ++ s) = repl ++ pyReplace pat repl s := by
  cases pat with
  | nil => exact absurd rfl h
  | cons p0 pt =>
    have hpre : (p0 :: pt).isPrefixOf ((p0 :: pt) ++ s) = true := by
      rw [List.isPrefixOf_iff_prefix]
      exact List.prefix_append _ _
    rw [List.cons_append, pyReplace_cons, if_pos ⟨h, by rw [← List.cons_append]; exact hpre⟩]
    congr 1
    rw [show p0 :: (pt ++ s) = (p0 :: pt) ++ s from rfl, List.drop_left]

/-- A nonempty prefix pattern pins down the head of a matching input. -/
theorem isPrefixOf_head {p0 : Char} {pt l : List Char}
    (h : (p0 :: pt).isPrefixOf l = true) : l.head? = some p0 := by
  cases l with
  | nil => simp [List.isPrefixOf] at h
  | cons c cs =>
    simp only [List.isPrefixOf, Bool.and_eq_true, beq_iff_eq] at h
    rw [h.1]
    rfl

/-- The `'nan'` pass copies any segment without an `'a'` unchanged,
provided no `'a'` immediately follows it: a match of `'nan'` would need
an `'a'` in its second position. -/
theorem pyReplace_nan_skip (s1 s2 : List Char) (ha : 'a' ∉ s1)
    (h2 : s2.head? ≠ some 'a') :
    pyReplace nanPat nanRepl (s1 ++ s2) =
      s1 ++ pyReplace nanPat nanRepl s2 := by
  induction s1 with
  | nil => rfl
  | cons c s1 ih =>
    have hnm : ¬ (nanPat ≠ [] ∧ nanPat.isPrefixOf (c :: (s1 ++ s2))) := by
      rintro ⟨-, hp⟩
      rw [List.isPrefixOf_iff_prefix] at hp
      obtain ⟨t, ht⟩ := hp
      simp only [nanPat, List.cons_append, List.nil_append] at ht
      injection ht with h1 ht
      cases s1 with
      | nil =>
        rw [List.nil_append] at ht
        exact h2 (by rw [← ht]; rfl)
      | cons d ds =>
        rw [List.cons_append] at ht
        injection ht with hd _
        refine ha ?_
        rw [hd]
        exact List.mem_cons_of_mem c (List.mem_cons_self d ds)
    rw [List.cons_append, pyReplace_cons, if_neg hnm,
      ih (fun hm => ha (List.mem_cons_of_mem c hm))]
    exact (List.cons_append c s1 _).symm

/-- The `'inf'` pass copies any segment without an `'i'` unchanged: a
match of `'inf'` must start at an `'i'`. -/
theorem pyReplace_inf_skip (s1 s2 : List Char) (hi : 'i' ∉ s1) :
    pyReplace infPat infRepl (s1 ++ s2) =
      s1 ++ pyReplace infPat infRepl s2 := by
  induction s1 with
  | nil => rfl
  | cons c s1 ih =>
    have hnm : ¬ (infPat ≠ [] ∧ infPat.isPrefixOf (c :: (s1 ++ s2))) := by
      rintro ⟨-, hp⟩
      have := @isPrefixOf_head 'i' ['n', 'f'] _ hp
      rw [List.head?_cons] at this
      injection this with hc
      exact hi (hc ▸ List.mem_cons_self c s1)
    rw [List.cons_append, pyReplace_cons, if_neg hnm,
      ih (fun hm => hi (List.mem_cons_of_mem c hm))]
    exact (List.cons_append c s1 _).symm

/-- Skipping a single character that cannot start a `'nan'` match. -/
theorem nan_skip_cons (c : Char) (hc : c ≠ 'n') (s : List Char) :
    pyReplace nanPat nanRepl (c :: s) = c :: pyReplace nanPat nanRepl s := by
  rw [pyReplace_cons, if_neg]
  rintro ⟨-, hp⟩
  have := @isPrefixOf_head 'n' ['a', 'n'] _ hp
  rw [List.head?_cons] at this
  injection this with h
  exact hc h

/-- Skipping a single character that cannot start an `'inf'` match. -/
theorem inf_skip_cons (c : Char) (hc : c ≠ 'i') (s : List Char) :
    pyReplace infPat infRepl (c :: s) = c :: pyReplace infPat infRepl s := by
  rw [pyReplace_cons, if_neg]
  rintro ⟨-, hp⟩
  have := @isPrefixOf_head 'i' ['n', 'f'] _ hp
  rw [List.head?_cons] at this
  injection this with h
  exact hc h

/-! ### Character facts about the printed pieces -/

/-- Digit characters print as digits. -/
theorem isDigitC_digCh (d : ℕ) (h : d < 10) : isDigitC (digCh d) = true := by
  interval_cases d <;> rfl

/-- Every character of `natChars` is a digit. -/
theorem mem_natChars (n : ℕ) (c : Char) (hc : c ∈ natChars n) :
    isDigitC c = true := by
  unfold natChars at hc
  split_ifs at hc with h
  · rw [List.mem_singleton] at hc
    subst hc
    rfl
  · rw [List.mem_map] at hc
    obtain ⟨d, hd, rfl⟩ := hc
    rw [List.mem_reverse] at hd
    exact isDigitC_digCh d (Nat.digits_lt_base (by norm_num) hd)

/-- `natChars` is never empty. -/
theorem natChars_ne_nil (n : ℕ) : natChars n ≠ [] := by
  unfold natChars
  split_ifs with h
  · simp
  · have h10 : Nat.digits 10 n ≠ [] := Nat.digits_ne_nil_iff_ne_zero.mpr h
    simp [h10]

/-- Every character of `intChars` is a digit or the minus sign. -/
theorem mem_intChars (m : ℤ) (c : Char) (hc : c ∈ intChars m) :
    isDigitC c = true ∨ c = '-' := by
  unfold intChars at hc
  split_ifs at hc with h
  · rw [List.mem_cons] at hc
    rcases hc with rfl | hc
    · exact Or.inr rfl
    · exact Or.inl (mem_natChars _ c hc)
  · exact Or.inl (mem_natChars _ c hc)

/-- A character that is not a digit, `'-'` or `'e'` does not occur in a
finite float literal. -/
theorem not_mem_finite_repr (x : Char) (hx : isDigitC x = false)
    (hxm : x ≠ '-') (hxe : x ≠ 'e') (m e : ℤ) :
    x ∉ intChars m ++ 'e' :: intChars e := by
  intro hmem
  rw [List.mem_append, List.mem_cons] at hmem
  rcases hmem with hmem | rfl | hmem
  · rcases mem_intChars m x hmem with hd | rfl
    · rw [hx] at hd
      exact Bool.noConfusion hd
    · exact hxm rfl
  · exact hxe rfl
  · rcases mem_intChars e x hmem with hd | rfl
    · rw [hx] at hd
      exact Bool.noConfusion hd
    · exact hxm rfl

/-- `intChars` starts with `'-'` or a digit. -/
theorem intChars_head (m : ℤ) :
    ∃ c cs, intChars m = c :: cs ∧ (c = '-' ∨ isDigitC c = true) := by
  unfold intChars
  split_ifs with h
  · exact ⟨'-', natChars m.natAbs, rfl, Or.inl rfl⟩
  · cases hnc : natChars m.natAbs with
    | nil => exact absurd hnc (natChars_ne_nil _)
    | cons c cs =>
      refine ⟨c, cs, rfl, Or.inr ?_⟩
      exact mem_natChars _ c (hnc ▸ List.mem_cons_self c cs)

/-- The head of a printed scalar (with anything after it) is never `'a'`. -/
theorem reprFloat_append_head_ne_a (f : PyFloat) (s : List Char) :
    (reprFloat f ++ s).head? ≠ some 'a' := by
  cases f with
  | finite m e =>
    obtain ⟨c, cs, hc, hd⟩ := intChars_head m
    show ((intChars m ++ 'e' :: intChars e) ++ s).head? ≠ some 'a'
    rw [hc]
    intro h
    injection h with h
    rcases hd with rfl | hd
    · exact absurd h (by decide)
    · subst h
      exact Bool.noConfusion hd
  | inf =>
    intro h
    injection h with h
    exact absurd h (by decide)
  | ninf =>
    intro h
    injection h with h
    exact absurd h (by decide)
  | nan =>
    intro h
    injection h with h
    exact absurd h (by decide)

/-- A cons-headed continuation whose head character is not `'a'`. -/
theorem head_cons_ne_a (c : Char) (hc : c ≠ 'a') (s : List Char) :
    (c :: s).head? ≠ some 'a' := by
  intro h
  injection h with h
  exact hc h

/-- Stage 1 on one scalar: the `'nan'` pass rewrites exactly the `nan`
literals, given that no `'a'` immediately follows the scalar. -/
theorem stage1_scalar (f : PyFloat) (s2 : List Char)
    (h2 : s2.head? ≠ some 'a') :
    pyReplace nanPat nanRepl (reprFloat f ++ s2) =
      reprFloat1 f ++ pyReplace nanPat nanRepl s2 := by
  cases f with
  | finite m e =>
    exact pyReplace_nan_skip _ s2
      (not_mem_finite_repr 'a' (by decide) (by decide) (by decide) m e) h2
  | inf =>
    exact pyReplace_nan_skip ['i', 'n', 'f'] s2 (by decide) h2
  | ninf =>
    exact pyReplace_nan_skip ['-', 'i', 'n', 'f'] s2 (by decide) h2
  | nan =>
    exact pyReplace_match nanPat nanRepl s2 (by decide)

/-- Stage 2 on one scalar: the `'inf'` pass rewrites exactly the `inf`
literals, leaving `float("nan")` and finite literals alone. -/
theorem stage2_scalar (f : PyFloat) (s2 : List Char) :
    pyReplace infPat infRepl (reprFloat1 f ++ s2) =
      reprFloat2 f ++ pyReplace infPat infRepl s2 := by
  cases f with
  | finite m e =>
    exact pyReplace_inf_skip _ s2
      (not_mem_finite_repr 'i' (by decide) (by decide) (by decide) m e)
  | inf =>
    exact pyReplace_match infPat infRepl s2 (by decide)
  | ninf =>
    show pyReplace infPat infRepl ('-' :: (infPat ++ s2)) = _
    rw [inf_skip_cons '-' (by decide), pyReplace_match infPat infRepl s2 (by decide)]
    rfl
  | nan =>
    exact pyReplace_inf_skip nanRepl s2 (by decide)

/-- The list tail always starts with `','` or `']'`. -/
theorem reprBodiesAux_head_ne_a (pf : PyFloat → List Char)
    (rest : List (BodyTup PyFloat)) (s2 : List Char) :
    (reprBodiesAuxWith pf rest ++ s2).head? ≠ some 'a' := by
  cases rest with
  | nil => exact head_cons_ne_a ']' (by decide) s2
  | cons b bs => exact head_cons_ne_a ',' (by decide) _

/-- Stage 1 on a printed 3-tuple. -/
theorem stage1_trip (t : PyFloat × PyFloat × PyFloat) (s2 : List Char)
    (h2 : s2.head? ≠ some 'a') :
    pyReplace nanPat nanRepl (reprTripWith reprFloat t ++ s2) =
      reprTripWith reprFloat1 t ++ pyReplace nanPat nanRepl s2 := by
  obtain ⟨a, b, c⟩ := t
  have e1 : reprTripWith reprFloat (a, b, c) ++ s2 =
      '(' :: (reprFloat a ++ ',' :: ' ' :: (reprFloat b ++ ',' :: ' ' ::
        (reprFloat c ++ ')' :: s2))) := by
    simp only [reprTripWith, List.cons_append, List.append_assoc, List.nil_append]
  rw [e1, nan_skip_cons '(' (by decide),
    stage1_scalar a _ (head_cons_ne_a ',' (by decide) _),
    nan_skip_cons ',' (by decide), nan_skip_cons ' ' (by decide),
    stage1_scalar b _ (head_cons_ne_a ',' (by decide) _),
    nan_skip_cons ',' (by decide), nan_skip_cons ' ' (by decide),
    stage1_scalar c _ (head_cons_ne_a ')' (by decide) _),
    nan_skip_cons ')' (by decide)]
  simp only [reprTripWith, List.cons_append, List.append_assoc, List.nil_append]

/-- Stage 1 on a printed 4-tuple. -/
theorem stage1_quad (t : PyFloat × PyFloat × PyFloat × PyFloat)
    (s2 : List Char) (h2 : s2.head? ≠ some 'a') :
    pyReplace nanPat nanRepl (reprQuadWith reprFloat t ++ s2) =
      reprQuadWith reprFloat1 t ++ pyReplace nanPat nanRepl s2 := by
  obtain ⟨a, b, c, d⟩ := t
  have e1 : reprQuadWith reprFloat (a, b, c, d) ++ s2 =
      '(' :: (reprFloat a ++ ',' :: ' ' :: (reprFloat b ++ ',' :: ' ' ::
        (reprFloat c ++ ',' :: ' ' :: (reprFloat d ++ ')' :: s2)))) := by
    simp only [reprQuadWith, List.cons_append, List.append_assoc, List.nil_append]
  rw [e1, nan_skip_cons '(' (by decide),
    stage1_scalar a _ (head_cons_ne_a ',' (by decide) _),
    nan_skip_cons ',' (by decide), nan_skip_cons ' ' (by decide),
    stage1_scalar b _ (head_cons_ne_a ',' (by decide) _),
    nan_skip_cons ',' (by decide), nan_skip_cons ' ' (by decide),
    stage1_scalar c _ (head_cons_ne_a ',' (by decide) _),
    nan_skip_cons ',' (by decide), nan_skip_cons ' ' (by decide),
    stage1_scalar d _ (head_cons_ne_a ')' (by decide) _),
    nan_skip_cons ')' (by decide)]
  simp only [reprQuadWith, List.cons_append, List.append_assoc, List.nil_append]

/-- Stage 1 on one printed body tuple. -/
theorem stage1_body (b : BodyTup PyFloat) (s2 : List Char)
    (h2 : s2.head? ≠ some 'a') :
    pyReplace nanPat nanRepl (reprBodyWith reprFloat b ++ s2) =
      reprBodyWith reprFloat1 b ++ pyReplace nanPat nanRepl s2 := by
  have e1 : reprBodyWith reprFloat b ++ s2 =
      '(' :: (reprTripWith reprFloat b.pos ++ ',' :: ' ' ::
        (reprTripWith reprFloat b.lin ++ ',' :: ' ' ::
          (reprTripWith reprFloat b.ang ++ ',' :: ' ' ::
            (reprQuadWith reprFloat b.quat ++ ')' :: s2)))) := by
    simp only [reprBodyWith, List.cons_append, List.append_assoc, List.nil_append]
  rw [e1, nan_skip_cons '(' (by decide),
    stage1_trip b.pos _ (head_cons_ne_a ',' (by decide) _),
    nan_skip_cons ',' (by decide), nan_skip_cons ' ' (by decide),
    stage1_trip b.lin _ (head_cons_ne_a ',' (by decide) _),
    nan_skip_cons ',' (by decide), nan_skip_cons ' ' (by decide),
    stage1_trip b.ang _ (head_cons_ne_a ',' (by decide) _),
    nan_skip_cons ',' (by decide), nan_skip_cons ' ' (by decide),
    stage1_quad b.quat _ (head_cons_ne_a ')' (by decide) _),
    nan_skip_cons ')' (by decide)]
  simp only [reprBodyWith, List.cons_append, List.append_assoc, List.nil_append]

/-- Stage 1 on the printed list tail. -/
theorem stage1_bodiesAux (bodies : List (BodyTup PyFloat)) (s2 : List Char)
    (h2 : s2.head? ≠ some 'a') :
    pyReplace nanPat nanRepl (reprBodiesAuxWith reprFloat bodies ++ s2) =
      reprBodiesAuxWith reprFloat1 bodies ++ pyReplace nanPat nanRepl s2 := by
  induction bodies with
  | nil => exact nan_skip_cons ']' (by decide) s2
  | cons b rest ih =>
    have e1 : reprBodiesAuxWith reprFloat (b :: rest) ++ s2 =
        ',' :: ' ' :: (reprBodyWith reprFloat b ++
          (reprBodiesAuxWith reprFloat rest ++ s2)) := by
      simp only [reprBodiesAuxWith, List.cons_append, List.append_assoc]
    rw [e1, nan_skip_cons ',' (by decide), nan_skip_cons ' ' (by decide),
      stage1_body b _ (reprBodiesAux_head_ne_a reprFloat rest s2), ih]
    simp only [reprBodiesAuxWith, List.cons_append, List.append_assoc]

/-- Stage 1 on the whole printed list. -/
theorem stage1_bodies (bodies : List (BodyTup PyFloat)) (s2 : List Char)
    (h2 : s2.head? ≠ some 'a') :
    pyReplace nanPat nanRepl (reprBodiesWith reprFloat bodies ++ s2) =
      reprBodiesWith reprFloat1 bodies ++ pyReplace nanPat nanRepl s2 := by
  cases bodies with
  | nil =>
    show pyReplace nanPat nanRepl ('[' :: (']' :: s2)) = _
    rw [nan_skip_cons '[' (by decide), nan_skip_cons ']' (by decide)]
    rfl
  | cons b rest =>
    have e1 : reprBodiesWith reprFloat (b :: rest) ++ s2 =
        '[' :: (reprBodyWith reprFloat b ++
          (reprBodiesAuxWith reprFloat rest ++ s2)) := by
      simp only [reprBodiesWith, List.cons_append, List.append_assoc]
    rw [e1, nan_skip_cons '[' (by decide),
      stage1_body b _ (reprBodiesAux_head_ne_a reprFloat rest s2),
      stage1_bodiesAux rest s2 h2]
    simp only [reprBodiesWith, List.cons_append, List.append_assoc]

/-- Stage 2 on a printed 3-tuple. -/
theorem stage2_trip (t : PyFloat × PyFloat × PyFloat) (s2 : List Char) :
    pyReplace infPat infRepl (reprTripWith reprFloat1 t ++ s2) =
      reprTripWith reprFloat2 t ++ pyReplace infPat infRepl s2 := by
  obtain ⟨a, b, c⟩ := t
  have e1 : reprTripWith reprFloat1 (a, b, c) ++ s2 =
      '(' :: (reprFloat1 a ++ ',' :: ' ' :: (reprFloat1 b ++ ',' :: ' ' ::
        (reprFloat1 c ++ ')' :: s2))) := by
    simp only [reprTripWith, List.cons_append, List.append_assoc, List.nil_append]
  rw [e1, inf_skip_cons '(' (by decide), stage2_scalar a,
    inf_skip_cons ',' (by decide), inf_skip_cons ' ' (by decide),
    stage2_scalar b,
    inf_skip_cons ',' (by decide), inf_skip_cons ' ' (by decide),
    stage2_scalar c, inf_skip_cons ')' (by decide)]
  simp only [reprTripWith, List.cons_append, List.append_assoc, List.nil_append]

/-- Stage 2 on a printed 4-tuple. -/
theorem stage2_quad (t : PyFloat × PyFloat × PyFloat × PyFloat)
    (s2 : List Char) :
    pyReplace infPat infRepl (reprQuadWith reprFloat1 t ++ s2) =
      reprQuadWith reprFloat2 t ++ pyReplace infPat infRepl s2 := by
  obtain ⟨a, b, c, d⟩ := t
  have e1 : reprQuadWith reprFloat1 (a, b, c, d) ++ s2 =
      '(' :: (reprFloat1 a ++ ',' :: ' ' :: (reprFloat1 b ++ ',' :: ' ' ::
        (reprFloat1 c ++ ',' :: ' ' :: (reprFloat1 d ++ ')' :: s2)))) := by
    simp only [reprQuadWith, List.cons_append, List.append_assoc, List.nil_append]
  rw [e1, inf_skip_cons '(' (by decide), stage2_scalar a,
    inf_skip_cons ',' (by decide), inf_skip_cons ' ' (by decide),
    stage2_scalar b,
    inf_skip_cons ',' (by decide), inf_skip_cons ' ' (by decide),
    stage2_scalar c,
    inf_skip_cons ',' (by decide), inf_skip_cons ' ' (by decide),
    stage2_scalar d, inf_skip_cons ')' (by decide)]
  simp only [reprQuadWith, List.cons_append, List.append_assoc, List.nil_append]

/-- Stage 2 on one printed body tuple. -/
theorem stage2_body (b : BodyTup PyFloat) (s2 : List Char) :
    pyReplace infPat infRepl (reprBodyWith reprFloat1 b ++ s2) =
      reprBodyWith reprFloat2 b ++ pyReplace infPat infRepl s2 := by
  have e1 : reprBodyWith reprFloat1 b ++ s2 =
      '(' :: (reprTripWith reprFloat1 b.pos ++ ',' :: ' ' ::
        (reprTripWith reprFloat1 b.lin ++ ',' :: ' ' ::
          (reprTripWith reprFloat1 b.ang ++ ',' :: ' ' ::
            (reprQuadWith reprFloat1 b.quat ++ ')' :: s2)))) := by
    simp only [reprBodyWith, List.cons_append, List.append_assoc, List.nil_append]
  rw [e1, inf_skip_cons '(' (by decide), stage2_trip b.pos,
    inf_skip_cons ',' (by decide), inf_skip_cons ' ' (by decide),
    stage2_trip b.lin,
    inf_skip_cons ',' (by decide), inf_skip_cons ' ' (by decide),
    stage2_trip b.ang,
    inf_skip_cons ',' (by decide), inf_skip_cons ' ' (by decide),
    stage2_quad b.quat, inf_skip_cons ')' (by decide)]
  simp only [reprBodyWith, List.cons_append, List.append_assoc, List.nil_append]

/-- Stage 2 on the printed list tail. -/
theorem stage2_bodiesAux (bodies : List (BodyTup PyFloat)) (s2 : List Char) :
    pyReplace infPat infRepl (reprBodiesAuxWith reprFloat1 bodies ++ s2) =
      reprBodiesAuxWith reprFloat2 bodies ++ pyReplace infPat infRepl s2 := by
  induction bodies with
  | nil => exact inf_skip_cons ']' (by decide) s2
  | cons b rest ih =>
    have e1 : reprBodiesAuxWith reprFloat1 (b :: rest) ++ s2 =
        ',' :: ' ' :: (reprBodyWith reprFloat1 b ++
          (reprBodiesAuxWith reprFloat1 rest ++ s2)) := by
      simp only [reprBodiesAuxWith, List.cons_append, List.append_assoc]
    rw [e1, inf_skip_cons ',' (by decide), inf_skip_cons ' ' (by decide),
      stage2_body b _, ih]
    simp only [reprBodiesAuxWith, List.cons_append, List.append_assoc]

/-- Stage 2 on the whole printed list. -/
theorem stage2_bodies (bodies : List (BodyTup PyFloat)) (s2 : List Char) :
    pyReplace infPat infRepl (reprBodiesWith reprFloat1 bodies ++ s2) =
      reprBodiesWith reprFloat2 bodies ++ pyReplace infPat infRepl s2 := by
  cases bodies with
  | nil =>
    show pyReplace infPat infRepl ('[' :: (']' :: s2)) = _
    rw [inf_skip_cons '[' (by decide), inf_skip_cons ']' (by decide)]
    rfl
  | cons b rest =>
    have e1 : reprBodiesWith reprFloat1 (b :: rest) ++ s2 =
        '[' :: (reprBodyWith reprFloat1 b ++
          (reprBodiesAuxWith reprFloat1 rest ++ s2)) := by
      simp only [reprBodiesWith, List.cons_append, List.append_assoc]
    rw [e1, inf_skip_cons '[' (by decide), stage2_body b _,
      stage2_bodiesAux rest s2]
    simp only [reprBodiesWith, List.cons_append, List.append_assoc]

/-- The two `replace` passes of `writeState` turn the raw `repr` text
into exactly the parser-safe print. -/
theorem encodeText_eq (bodies : List (BodyTup PyFloat)) :
    encodeText bodies = reprBodiesWith reprFloat2 bodies := by
  unfold encodeText
  have h1 := stage1_bodies bodies [] (by simp)
  have h2 := stage2_bodies bodies []
  simp only [show pyReplace nanPat nanRepl [] = [] from rfl,
    show pyReplace infPat infRepl [] = [] from rfl, List.append_nil] at h1 h2
  rw [h1, h2]

/-! ### The decoder inverts the safe print -/

/-- `parseLit` consumes exactly its literal. -/
theorem parseLit_append (lit s : List Char) : parseLit lit (lit ++ s) = some s := by
  have hp : lit.isPrefixOf (lit ++ s) = true := by
    rw [List.isPrefixOf_iff_prefix]
    exact List.prefix_append _ _
  unfold parseLit
  rw [if_pos hp, List.drop_left]

/-- `parseLit` on a single character, cons form. -/
theorem parseLit_cons1 (c : Char) (s : List Char) :
    parseLit [c] (c :: s) = some s :=
  parseLit_append [c] s

/-- `parseLit` on two characters, cons form. -/
theorem parseLit_cons2 (c d : Char) (s : List Char) :
    parseLit [c, d] (c :: d :: s) = some s :=
  parseLit_append [c, d] s

/-- `parseLit` fails when the single-character literal mismatches. -/
theorem parseLit_single_ne (c d : Char) (h : d ≠ c) (s : List Char) :
    parseLit [c] (d :: s) = none := by
  unfold parseLit
  rw [if_neg]
  intro hp
  have := @isPrefixOf_head c [] _ hp
  rw [List.head?_cons] at this
  injection this with h'
  exact h h'

/-- `takeWhile`/`dropWhile` split an all-satisfying block from a
continuation whose head fails the test. -/
theorem takeWhile_all_append (p : Char → Bool) (xs rest : List Char)
    (hx : ∀ c ∈ xs, p c = true)
    (hr : ∀ c, rest.head? = some c → p c = false) :
    (xs ++ rest).takeWhile p = xs ∧ (xs ++ rest).dropWhile p = rest := by
  induction xs with
  | nil =>
    simp only [List.nil_append]
    cases rest with
    | nil => exact ⟨rfl, rfl⟩
    | cons r rs =>
      have h0 := hr r rfl
      rw [List.takeWhile_cons, List.dropWhile_cons, h0]
      simp
  | cons x xs ih =>
    have hx0 : p x = true := hx x (List.mem_cons_self x xs)
    obtain ⟨h1, h2⟩ := ih (fun c hc => hx c (List.mem_cons_of_mem x hc))
    rw [List.cons_append, List.takeWhile_cons, List.dropWhile_cons, hx0]
    simp [h1, h2]

/-- The printed digit's numeric value. -/
theorem digCh_val (d : ℕ) (h : d < 10) : (digCh d).toNat - 48 = d := by
  interval_cases d <;> rfl

/-- Folding the digit accumulator over printed digits. -/
theorem foldl_digits (L : List ℕ) (h : ∀ d ∈ L, d < 10) :
    ∀ a : ℕ, (L.map digCh).foldl (fun a c => 10 * a + (c.toNat - 48)) a =
      L.foldl (fun a d => 10 * a + d) a := by
  induction L with
  | nil => intro a; rfl
  | cons d L ih =>
    intro a
    simp only [List.map_cons, List.foldl_cons]
    rw [digCh_val d (h d (List.mem_cons_self d L))]
    exact ih (fun x hx => h x (List.mem_cons_of_mem d hx)) _

/-- The most-significant-first fold agrees with `Nat.ofDigits`. -/
theorem foldr_ofDigits (L : List ℕ) :
    L.foldr (fun d a => 10 * a + d) 0 = Nat.ofDigits 10 L := by
  induction L with
  | nil => rfl
  | cons d L ih =>
    rw [List.foldr_cons, ih, Nat.ofDigits_cons]
    ring

/-- Decimal printing then digit folding is the identity. -/
theorem digitsVal_natChars (n : ℕ) : digitsVal (natChars n) = n := by
  unfold digitsVal natChars
  split_ifs with h
  · subst h
    rfl
  · rw [foldl_digits _ (fun d hd =>
      Nat.digits_lt_base (by norm_num) (List.mem_reverse.mp hd)) 0,
      List.foldl_reverse, foldr_ofDigits]
    exact Nat.ofDigits_digits 10 n

/-- `parseNat` inverts `natChars`, given a non-digit continuation. -/
theorem parseNat_append (n : ℕ) (rest : List Char)
    (hr : ∀ c, rest.head? = some c → isDigitC c = false) :
    parseNat (natChars n ++ rest) = some (n, rest) := by
  obtain ⟨ht, hd⟩ := takeWhile_all_append isDigitC (natChars n) rest
    (fun c hc => mem_natChars n c hc) hr
  unfold parseNat
  rw [ht, hd, if_neg (natChars_ne_nil n), digitsVal_natChars]

/-- `parseInt` inverts `intChars`, given a non-digit continuation. -/
theorem parseInt_append (m : ℤ) (rest : List Char)
    (hr : ∀ c, rest.head? = some c → isDigitC c = false) :
    parseInt (intChars m ++ rest) = some (m, rest) := by
  by_cases hm : m < 0
  · have hi : intChars m = '-' :: natChars m.natAbs := by
      unfold intChars
      rw [if_pos hm]
    unfold parseInt
    rw [hi, List.cons_append, if_pos (by rw [List.head?_cons])]
    show (parseNat (natChars m.natAbs ++ rest)).map _ = _
    rw [parseNat_append m.natAbs rest hr]
    simp only [Option.map_some', Option.some.injEq, Prod.mk.injEq]
    exact ⟨by omega, trivial⟩
  · have hi : intChars m = natChars m.natAbs := by
      unfold intChars
      rw [if_neg hm]
    obtain ⟨c, cs, hc⟩ : ∃ c cs, natChars m.natAbs = c :: cs := by
      cases hnc : natChars m.natAbs with
      | nil => exact absurd hnc (natChars_ne_nil _)
      | cons c cs => exact ⟨c, cs, rfl⟩
    have hcd : isDigitC c = true :=
      mem_natChars _ c (hc ▸ List.mem_cons_self c cs)
    have hcm : c ≠ '-' := by
      intro he
      subst he
      exact Bool.noConfusion hcd
    unfold parseInt
    rw [hi, hc, List.cons_append, if_neg (by
      rw [List.head?_cons]
      intro he
      injection he with he
      exact hcm he), ← List.cons_append, ← hc,
      parseNat_append m.natAbs rest hr]
    simp only [Option.map_some', Option.some.injEq, Prod.mk.injEq]
    exact ⟨by omega, trivial⟩

/-- A cons continuation whose head is not a digit. -/
theorem head_cons_not_digit (c : Char) (h : isDigitC c = false)
    (s : List Char) :
    ∀ x, ((c :: s).head? = some x) → isDigitC x = false := by
  intro x hx
  rw [List.head?_cons] at hx
  injection hx with hx
  subst hx
  exact h

/-- A literal cannot be a prefix when the heads differ. -/
theorem not_prefix_of_ne_head {p0 c : Char} {pt s : List Char} (h : c ≠ p0) :
    ¬ ((p0 :: pt).isPrefixOf (c :: s) = true) := by
  intro hp
  have := isPrefixOf_head hp
  rw [List.head?_cons] at this
  injection this with h'
  exact h h'

/-- `float("nan")` cannot be a prefix unless the input starts with `'f'`. -/
theorem nanRepl_no_match (c : Char) (hc : c ≠ 'f') (s : List Char) :
    ¬ (nanRepl.isPrefixOf (c :: s) = true) :=
  @not_prefix_of_ne_head 'f' c ['l', 'o', 'a', 't', '(', '"', 'n', 'a', 'n', '"', ')'] s hc

/-- `float("inf")` cannot be a prefix unless the input starts with `'f'`. -/
theorem infRepl_no_match (c : Char) (hc : c ≠ 'f') (s : List Char) :
    ¬ (infRepl.isPrefixOf (c :: s) = true) :=
  @not_prefix_of_ne_head 'f' c ['l', 'o', 'a', 't', '(', '"', 'i', 'n', 'f', '"', ')'] s hc

/-- `-float("inf")` cannot be a prefix unless the input starts with `'-'`. -/
theorem ninfRepl_no_match (c : Char) (hc : c ≠ '-') (s : List Char) :
    ¬ (('-' :: infRepl).isPrefixOf (c :: s) = true) :=
  not_prefix_of_ne_head hc

/-- `-float("inf")` cannot be a prefix of `'-'` followed by a non-`'f'`. -/
theorem ninfRepl_no_match_digit (d : Char) (hd : d ≠ 'f') (s : List Char) :
    ¬ (('-' :: infRepl).isPrefixOf ('-' :: d :: s) = true) := by
  intro hp
  simp only [List.isPrefixOf, Bool.and_eq_true] at hp
  have hfd := hp.2.1
  rw [beq_iff_eq] at hfd
  exact hd hfd.symm

/-- `parseScalar` inverts the safe scalar print, given a continuation
that does not start with a digit. -/
theorem parseScalar_append (f : PyFloat) (rest : List Char)
    (hr : ∀ c, rest.head? = some c → isDigitC c = false) :
    parseScalar (reprFloat2 f ++ rest) = some (f, rest) := by
  cases f with
  | nan =>
    show parseScalar (nanRepl ++ rest) = _
    unfold parseScalar
    rw [if_pos (by rw [List.isPrefixOf_iff_prefix]; exact List.prefix_append _ _),
      List.drop_left]
  | inf =>
    show parseScalar (infRepl ++ rest) = _
    unfold parseScalar
    rw [if_neg (by
        intro hp
        simp [nanRepl, infRepl, List.isPrefixOf, List.cons_append] at hp),
      if_pos (by rw [List.isPrefixOf_iff_prefix]; exact List.prefix_append _ _),
      List.drop_left]
  | ninf =>
    show parseScalar ('-' :: (infRepl ++ rest)) = _
    unfold parseScalar
    rw [if_neg (nanRepl_no_match '-' (by decide) _),
      if_neg (infRepl_no_match '-' (by decide) _),
      if_pos (show ('-' :: infRepl).isPrefixOf ('-' :: (infRepl ++ rest)) = true by
        rw [List.isPrefixOf_iff_prefix]
        exact List.prefix_append ('-' :: infRepl) rest)]
    exact congrArg (fun X => some (PyFloat.ninf, X))
      (List.drop_left ('-' :: infRepl) rest)
  | finite m e =>
    have hsh : reprFloat2 (.finite m e) ++ rest =
        intChars m ++ ('e' :: (intChars e ++ rest)) := by
      simp only [reprFloat2, List.cons_append, List.append_assoc]
    have hdo : parseInt (intChars m ++ ('e' :: (intChars e ++ rest))) =
        some (m, 'e' :: (intChars e ++ rest)) :=
      parseInt_append m _ (head_cons_not_digit 'e' (by decide) _)
    by_cases hm : m < 0
    · have hi : intChars m = '-' :: natChars m.natAbs := by
        unfold intChars
        rw [if_pos hm]
      obtain ⟨d, ds, hdc⟩ : ∃ d ds, natChars m.natAbs = d :: ds := by
        cases hnc : natChars m.natAbs with
        | nil => exact absurd hnc (natChars_ne_nil _)
        | cons d ds => exact ⟨d, ds, rfl⟩
      have hdd : isDigitC d = true :=
        mem_natChars _ d (hdc ▸ List.mem_cons_self d ds)
      have hdf : d ≠ 'f' := fun he => absurd (he ▸ hdd) (by decide)
      have hin : reprFloat2 (.finite m e) ++ rest =
          '-' :: d :: (ds ++ 'e' :: (intChars e ++ rest)) := by
        rw [hsh, hi, hdc]
        simp [List.cons_append]
      have hback : '-' :: d :: (ds ++ 'e' :: (intChars e ++ rest)) =
          intChars m ++ ('e' :: (intChars e ++ rest)) := hin.symm.trans hsh
      rw [hin]
      unfold parseScalar
      rw [if_neg (nanRepl_no_match '-' (by decide) _),
        if_neg (infRepl_no_match '-' (by decide) _),
        if_neg (ninfRepl_no_match_digit d hdf _),
        hback, hdo]
      simp only [Option.bind_eq_bind, Option.some_bind]
      rw [show parseLit ['e'] ('e' :: (intChars e ++ rest)) =
          some (intChars e ++ rest) from parseLit_cons1 'e' _]
      simp only [Option.some_bind]
      rw [parseInt_append e rest hr]
      simp only [Option.some_bind, Option.pure_def]
    · have hi : intChars m = natChars m.natAbs := by
        unfold intChars
        rw [if_neg hm]
      obtain ⟨d, ds, hdc⟩ : ∃ d ds, natChars m.natAbs = d :: ds := by
        cases hnc : natChars m.natAbs with
        | nil => exact absurd hnc (natChars_ne_nil _)
        | cons d ds => exact ⟨d, ds, rfl⟩
      have hdd : isDigitC d = true :=
        mem_natChars _ d (hdc ▸ List.mem_cons_self d ds)
      have hdf : d ≠ 'f' := fun he => absurd (he ▸ hdd) (by decide)
      have hdm : d ≠ '-' := fun he => absurd (he ▸ hdd) (by decide)
      have hin : reprFloat2 (.finite m e) ++ rest =
          d :: (ds ++ 'e' :: (intChars e ++ rest)) := by
        rw [hsh, hi, hdc]
        simp [List.cons_append]
      have hback : d :: (ds ++ 'e' :: (intChars e ++ rest)) =
          intChars m ++ ('e' :: (intChars e ++ rest)) := hin.symm.trans hsh
      rw [hin]
      unfold parseScalar
      rw [if_neg (nanRepl_no_match d hdf _),
        if_neg (infRepl_no_match d hdf _),
        if_neg (ninfRepl_no_match d hdm _),
        hback, hdo]
      simp only [Option.bind_eq_bind, Option.some_bind]
      rw [show parseLit ['e'] ('e' :: (intChars e ++ rest)) =
          some (intChars e ++ rest) from parseLit_cons1 'e' _]
      simp only [Option.some_bind]
      rw [parseInt_append e rest hr]
      simp only [Option.some_bind, Option.pure_def]

/-- `parseTrip` inverts the safe 3-tuple print. -/
theorem parseTrip_append (t : PyFloat × PyFloat × PyFloat) (rest : List Char) :
    parseTrip (reprTripWith reprFloat2 t ++ rest) = some (t, rest) := by
  obtain ⟨a, b, c⟩ := t
  have e1 : reprTripWith reprFloat2 (a, b, c) ++ rest =
      '(' :: (reprFloat2 a ++ ',' :: ' ' :: (reprFloat2 b ++ ',' :: ' ' ::
        (reprFloat2 c ++ ')' :: rest))) := by
    simp only [reprTripWith, List.cons_append, List.append_assoc, List.nil_append]
  rw [e1]
  unfold parseTrip
  rw [parseLit_cons1 '(' _]
  simp only [Option.bind_eq_bind, Option.some_bind]
  rw [parseScalar_append a _ (head_cons_not_digit ',' (by decide) _)]
  simp only [Option.some_bind]
  rw [parseLit_cons2 ',' ' ' _]
  simp only [Option.some_bind]
  rw [parseScalar_append b _ (head_cons_not_digit ',' (by decide) _)]
  simp only [Option.some_bind]
  rw [parseLit_cons2 ',' ' ' _]
  simp only [Option.some_bind]
  rw [parseScalar_append c _ (head_cons_not_digit ')' (by decide) _)]
  simp only [Option.some_bind]
  rw [parseLit_cons1 ')' _]
  simp only [Option.some_bind, Option.pure_def]

/-- `parseQuad` inverts the safe 4-tuple print. -/
theorem parseQuad_append (t : PyFloat × PyFloat × PyFloat × PyFloat)
    (rest : List Char) :
    parseQuad (reprQuadWith reprFloat2 t ++ rest) = some (t, rest) := by
  obtain ⟨a, b, c, d⟩ := t
  have e1 : reprQuadWith reprFloat2 (a, b, c, d) ++ rest =
      '(' :: (reprFloat2 a ++ ',' :: ' ' :: (reprFloat2 b ++ ',' :: ' ' ::
        (reprFloat2 c ++ ',' :: ' ' :: (reprFloat2 d ++ ')' :: rest)))) := by
    simp only [reprQuadWith, List.cons_append, List.append_assoc, List.nil_append]
  rw [e1]
  unfold parseQuad
  rw [parseLit_cons1 '(' _]
  simp only [Option.bind_eq_bind, Option.some_bind]
  rw [parseScalar_append a _ (head_cons_not_digit ',' (by decide) _)]
  simp only [Option.some_bind]
  rw [parseLit_cons2 ',' ' ' _]
  simp only [Option.some_bind]
  rw [parseScalar_append b _ (head_cons_not_digit ',' (by decide) _)]
  simp only [Option.some_bind]
  rw [parseLit_cons2 ',' ' ' _]
  simp only [Option.some_bind]
  rw [parseScalar_append c _ (head_cons_not_digit ',' (by decide) _)]
  simp only [Option.some_bind]
  rw [parseLit_cons2 ',' ' ' _]
  simp only [Option.some_bind]
  rw [parseScalar_append d _ (head_cons_not_digit ')' (by decide) _)]
  simp only [Option.some_bind]
  rw [parseLit_cons1 ')' _]
  simp only [Option.some_bind, Option.pure_def]

/-- `parseBody` inverts the safe body print. -/
theorem parseBody_append (b : BodyTup PyFloat) (rest : List Char) :
    parseBody (reprBodyWith reprFloat2 b ++ rest) = some (b, rest) := by
  have e1 : reprBodyWith reprFloat2 b ++ rest =
      '(' :: (reprTripWith reprFloat2 b.pos ++ ',' :: ' ' ::
        (reprTripWith reprFloat2 b.lin ++ ',' :: ' ' ::
          (reprTripWith reprFloat2 b.ang ++ ',' :: ' ' ::
            (reprQuadWith reprFloat2 b.quat ++ ')' :: rest)))) := by
    simp only [reprBodyWith, List.cons_append, List.append_assoc, List.nil_append]
  rw [e1]
  unfold parseBody
  rw [parseLit_cons1 '(' _]
  simp only [Option.bind_eq_bind, Option.some_bind]
  rw [parseTrip_append b.pos _]
  simp only [Option.some_bind]
  rw [parseLit_cons2 ',' ' ' _]
  simp only [Option.some_bind]
  rw [parseTrip_append b.lin _]
  simp only [Option.some_bind]
  rw [parseLit_cons2 ',' ' ' _]
  simp only [Option.some_bind]
  rw [parseTrip_append b.ang _]
  simp only [Option.some_bind]
  rw [parseLit_cons2 ',' ' ' _]
  simp only [Option.some_bind]
  rw [parseQuad_append b.quat _]
  simp only [Option.some_bind]
  rw [parseLit_cons1 ')' _]
  simp only [Option.some_bind, Option.pure_def]

/-- `parseBodiesAux` inverts the printed list tail for any sufficient
fuel. -/
theorem parseBodiesAux_append (bodies : List (BodyTup PyFloat)) :
    ∀ (fuel : ℕ) (rest : List Char),
      (reprBodiesAuxWith reprFloat2 bodies).length ≤ fuel →
      parseBodiesAux fuel (reprBodiesAuxWith reprFloat2 bodies ++ rest) =
        some (bodies, rest) := by
  induction bodies with
  | nil =>
    intro fuel rest hf
    cases fuel with
    | zero => simp [reprBodiesAuxWith] at hf
    | succ f =>
      have hl : parseLit [']'] (']' :: rest) = some rest := parseLit_cons1 ']' rest
      show parseBodiesAux (f + 1) (']' :: rest) = some ([], rest)
      simp [parseBodiesAux, hl]
  | cons b bs ih =>
    intro fuel rest hf
    cases fuel with
    | zero => simp [reprBodiesAuxWith] at hf
    | succ f =>
      have e1 : reprBodiesAuxWith reprFloat2 (b :: bs) ++ rest =
          ',' :: ' ' :: (reprBodyWith reprFloat2 b ++
            (reprBodiesAuxWith reprFloat2 bs ++ rest)) := by
        simp only [reprBodiesAuxWith, List.cons_append, List.append_assoc]
      have hlen : (reprBodiesAuxWith reprFloat2 bs).length ≤ f := by
        simp only [reprBodiesAuxWith, List.length_cons, List.length_append] at hf
        omega
      rw [e1]
      have hne : parseLit [']'] (',' :: ' ' :: (reprBodyWith reprFloat2 b ++
          (reprBodiesAuxWith reprFloat2 bs ++ rest))) = none :=
        parseLit_single_ne ']' ',' (by decide) _
      simp only [parseBodiesAux, hne]
      rw [parseLit_cons2 ',' ' ' _]
      simp only [Option.bind_eq_bind, Option.some_bind]
      rw [parseBody_append b _]
      simp only [Option.some_bind]
      rw [ih f rest hlen]
      simp only [Option.some_bind, Option.pure_def]

/-- The decoder inverts the safe print of the whole state. -/
theorem decodeBodies_print (bodies : List (BodyTup PyFloat)) :
    decodeBodies (reprBodiesWith reprFloat2 bodies) = some bodies := by
  cases bodies with
  | nil =>
    show decodeBodies ('[' :: (']' :: [])) = some []
    unfold decodeBodies
    rw [parseLit_cons1 '[' _]
    simp only [Option.bind_eq_bind, Option.some_bind]
    rw [parseLit_cons1 ']' _]
    rfl
  | cons b bs =>
    unfold decodeBodies
    have e1 : reprBodiesWith reprFloat2 (b :: bs) =
        '[' :: (reprBodyWith reprFloat2 b ++ reprBodiesAuxWith reprFloat2 bs) := by
      simp only [reprBodiesWith]
    rw [e1, parseLit_cons1 '[' _]
    simp only [Option.bind_eq_bind, Option.some_bind]
    obtain ⟨X, hX⟩ : ∃ X, reprBodyWith reprFloat2 b ++
        reprBodiesAuxWith reprFloat2 bs = '(' :: X := by
      simp only [reprBodyWith, List.cons_append]
      exact ⟨_, rfl⟩
    rw [hX, parseLit_single_ne ']' '(' (by decide) _, ← hX]
    rw [parseBody_append b _]
    simp only [Option.some_bind]
    have haux := parseBodiesAux_append bs
      ((reprBodiesAuxWith reprFloat2 bs).length) [] (le_refl _)
    rw [List.append_nil] at haux
    rw [haux]
    simp only [Option.some_bind]
    rfl

/-- C7: encoding a world state with `writeState` — `stateToList`, then
`repr`, then the `nan`/`inf` literal rewriting — and decoding the
submitted text back as a literal reproduces exactly the same per-body
numeric tuples: finite values, `inf`, `-inf` and `nan` all survive the
textual round trip unchanged. -/
theorem writeState_roundtrip (rb : ℕ) (state : List (Block PyFloat))
    (bodies : List (BodyTup PyFloat)) :
    (stateToList rb state = some bodies →
      writeStateText rb state = some (encodeText bodies)) ∧
    decodeBodies (encodeText bodies) = some bodies := by
  constructor
  · intro h
    unfold writeStateText
    rw [h]
    rfl
  · rw [encodeText_eq]
    exact decodeBodies_print bodies

end MorseEnv
